import Mathlib

/-!
smolog: a shallow embedding of the logger and its sinks.

The definitions below follow `src/smolog.hpp` and `src/smolog.cpp`.

Modelling conventions.

* A `char` buffer is a `List Char`; the terminator is `NUL = '\x00'`.  A `const char *`
  argument is the list of bytes found at the pointer; `c_str` cuts it at the first `NUL`.
* A `std::vector<char>` is a `List Char`; writes through `buf.data() + off` are bounds
  checked and yield `none` when they would leave the vector.
* A `std::shared_ptr<sink>` is the pointed-to object together with its address `addr`,
  which is the identity `remove_sink` compares.
* The results of the library calls `strftime` and `vsnprintf` are parameters: `time_buf` is
  the string `strftime` leaves in `time_buf`, `expansion` is the text `vsnprintf` produces for
  the caller's format string and arguments.
* The observable effects live in a `World`: the virtual calls received by sink objects, with
  their call nesting depth, and the bytes written to / flushes requested on each output stream.
* A call returns, leaves by a C++ exception, or never returns (`Outcome`).  The source
  contains no `try`/`catch`, so an exception leaves every enclosing function.
* Calls are sequential, on one thread.  The function-local `static std::mutex` of
  `mt_sink::write`, one for all wrappers, is the flag `mut_locked` of the `World`.  A wrapper
  entered while the flag is set would lock the mutex a second time from the same thread, which
  has no defined behaviour in C++; the embedding takes the usual one, the call never returns
  (`Outcome.blocked`), and nothing after it happens.
* Every `shared_ptr` in a sink list points to an object, the `FILE *` of a `file_sink` is
  open, and the stream behind an `ostream_sink` has no exceptions enabled (the default).  A
  sink does not call back into the logger that is calling it.
* The Windows-only sinks (`wincolor_sink`, `msvc_sink`) are compiled out by the preprocessor on
  other platforms and are not part of the embedding.
-/

namespace smolog

/-! ## Data model (`smolog.hpp`) -/

/-- The underlying value of `enum Level : unsigned char`; comparisons of levels are
comparisons of these values. -/
abbrev Level := Nat

namespace Level
@[match_pattern] abbrev Off : Level := 0
@[match_pattern] abbrev Trace : Level := 1
@[match_pattern] abbrev Debug : Level := 2
@[match_pattern] abbrev Info : Level := 3
@[match_pattern] abbrev Warning : Level := 4
@[match_pattern] abbrev Error : Level := 5
@[match_pattern] abbrev Critical : Level := 6
end Level

/-- The string terminator. -/
abbrev NUL : Char := Char.ofNat 0

/-- The newline character. -/
abbrev NL : Char := Char.ofNat 10

/-- The C string found at a pointer: the bytes before the first terminator. -/
def c_str (p : List Char) : List Char := p.takeWhile (fun c => c != NUL)

/-- The C function `strlen`. -/
def strlen (p : List Char) : Nat := (c_str p).length

/-- The type `struct message`: `str` is the memory found at the pointer, `size` and `level`
as in the source. -/
structure message where
  str : List Char
  size : Nat
  level : Level
deriving DecidableEq, Repr

/-- How a call ends: by returning, by an exception that propagates to the caller, or not at
all because the thread waits for the mutex of `mt_sink::write` that it already holds. -/
inductive Outcome where
  | returned
  | thrown
  | blocked
deriving DecidableEq, Repr

/-- The two virtual operations of `struct sink`. -/
inductive Op where
  | write (msg : message)
  | flush
deriving DecidableEq, Repr

/-- One virtual call received by the sink object at address `addr`; `depth` is the call
nesting depth (0 for calls made by the logger, `d + 1` for calls made by a sink that was itself
called at depth `d`). -/
structure Call where
  depth : Nat
  addr : Nat
  op : Op
deriving DecidableEq, Repr

/-- The output streams of the process. -/
inductive Stream where
  | stdout
  | stderr
  | file (fd : Nat)
  | ostream (id : Nat)
deriving DecidableEq, Repr

/-- The observable state outside the logger. -/
structure World where
  calls : List Call
  out : Stream → List Char
  flushes : Stream → Nat
  mut_locked : Bool

/-- The world before anything happened. -/
def World.empty : World :=
  { calls := [], out := fun _ => [], flushes := fun _ => 0, mut_locked := false }

/-- The constructor of `std::lock_guard` on the mutex of `mt_sink::write`, when the mutex is
free. -/
def World.lock (w : World) : World := { w with mut_locked := true }

/-- The destructor of `std::lock_guard` on the mutex of `mt_sink::write`. -/
def World.unlock (w : World) : World := { w with mut_locked := false }

/-- The end of the scope of the `std::lock_guard` in `mt_sink::write`: the mutex is released
when the wrapped call returned and when it threw; a call that never returns releases
nothing. -/
def lock_guard_scope_end : World × Outcome → World × Outcome
  | (w, .returned) => (w.unlock, .returned)
  | (w, .thrown) => (w.unlock, .thrown)
  | (w, .blocked) => (w, .blocked)

/-- Note that a sink object received a virtual call. -/
def World.record (w : World) (c : Call) : World := { w with calls := w.calls ++ [c] }

/-- The call `fputs(str, stream)`: appends the C string at `str` to the stream. -/
def fputs (str : List Char) (stream : Stream) (w : World) : World :=
  { w with out := Function.update w.out stream (w.out stream ++ c_str str) }

/-- The call `fflush(stream)`. -/
def fflush (stream : Stream) (w : World) : World :=
  { w with flushes := Function.update w.flushes stream (w.flushes stream + 1) }

/-- The call `std::ostream::write(str, size)`: appends `size` bytes starting at `str`. -/
def ostream_write (os : Stream) (str : List Char) (size : Nat) (w : World) : World :=
  { w with out := Function.update w.out os (w.out os ++ str.take size) }

/-- The sink objects.  `user_sink` stands for any other class derived from the abstract
`struct sink`: its `write` and `flush` are opaque apart from whether they return or throw. -/
inductive sink where
  | stdout_sink (addr : Nat)
  | stderr_sink (addr : Nat)
  | file_sink (addr : Nat) (fd : Nat)
  | ostream_sink (addr : Nat) (os : Nat)
  | dist_sink (addr : Nat) (sinks : List sink)
  | mt_sink (addr : Nat) (wrapped : sink)
  | user_sink (addr : Nat) (write_throws : message → Bool) (flush_throws : Bool)

/-- The address of a sink object (what `shared_ptr::get` returns). -/
def sink.addr : sink → Nat
  | .stdout_sink a => a
  | .stderr_sink a => a
  | .file_sink a _ => a
  | .ostream_sink a _ => a
  | .dist_sink a _ => a
  | .mt_sink a _ => a
  | .user_sink a _ _ => a

/-! ## Leaf sinks (`smolog.cpp`) -/

/-- The method `stdout_sink::write`. -/
def stdout_sink.write (msg : message) (w : World) : World := fputs msg.str Stream.stdout w

/-- The method `stdout_sink::flush`. -/
def stdout_sink.flush (w : World) : World := fflush Stream.stdout w

/-- The method `stderr_sink::write`; the stream named in the source is `stdout`. -/
def stderr_sink.write (msg : message) (w : World) : World := fputs msg.str Stream.stdout w

/-- The method `stderr_sink::flush`; the stream named in the source is `stdout`. -/
def stderr_sink.flush (w : World) : World := fflush Stream.stdout w

/-- The method `file_sink::write`. -/
def file_sink.write (fd : Nat) (msg : message) (w : World) : World :=
  fputs msg.str (Stream.file fd) w

/-- The method `file_sink::flush`. -/
def file_sink.flush (fd : Nat) (w : World) : World := fflush (Stream.file fd) w

/-- The method `ostream_sink::write`. -/
def ostream_sink.write (os : Nat) (msg : message) (w : World) : World :=
  ostream_write (Stream.ostream os) msg.str msg.size w

/-- The method `ostream_sink::flush`. -/
def ostream_sink.flush (os : Nat) (w : World) : World := fflush (Stream.ostream os) w

/-! ## Virtual dispatch -/

mutual
/-- The virtual call `s->write(msg)` made at nesting depth `depth`. -/
def sink.write : sink → Nat → message → World → World × Outcome
  | .stdout_sink a, depth, msg, w =>
      (stdout_sink.write msg (w.record ⟨depth, a, .write msg⟩), .returned)
  | .stderr_sink a, depth, msg, w =>
      (stderr_sink.write msg (w.record ⟨depth, a, .write msg⟩), .returned)
  | .file_sink a fd, depth, msg, w =>
      (file_sink.write fd msg (w.record ⟨depth, a, .write msg⟩), .returned)
  | .ostream_sink a os, depth, msg, w =>
      (ostream_sink.write os msg (w.record ⟨depth, a, .write msg⟩), .returned)
  | .dist_sink a sinks, depth, msg, w =>
      -- dist_sink::write
      write_each sinks (depth + 1) msg (w.record ⟨depth, a, .write msg⟩)
  | .mt_sink a wrapped, depth, msg, w =>
      -- mt_sink::write: lock the shared static mutex, forward, release at the end of the scope
      if w.mut_locked then (w.record ⟨depth, a, .write msg⟩, .blocked)
      else
        lock_guard_scope_end
          (sink.write wrapped (depth + 1) msg (w.record ⟨depth, a, .write msg⟩).lock)
  | .user_sink a write_throws _, depth, msg, w =>
      (w.record ⟨depth, a, .write msg⟩,
        if write_throws msg then .thrown else .returned)
/-- The loop `for (auto& sink : sinks) sink->write(msg);` of `logger::_log` and of
`dist_sink::write`. -/
def write_each : List sink → Nat → message → World → World × Outcome
  | [], _, _, w => (w, .returned)
  | s :: rest, depth, msg, w =>
      match sink.write s depth msg w with
      | (w1, .returned) => write_each rest depth msg w1
      | (w1, .thrown) => (w1, .thrown)
      | (w1, .blocked) => (w1, .blocked)
end

/-- The virtual call `s->flush()` made at nesting depth `depth`.  `dist_sink` and `mt_sink` do
not override `flush` and run the empty `sink::flush`. -/
def sink.flush : sink → Nat → World → World × Outcome
  | .stdout_sink a, depth, w => (stdout_sink.flush (w.record ⟨depth, a, .flush⟩), .returned)
  | .stderr_sink a, depth, w => (stderr_sink.flush (w.record ⟨depth, a, .flush⟩), .returned)
  | .file_sink a fd, depth, w => (file_sink.flush fd (w.record ⟨depth, a, .flush⟩), .returned)
  | .ostream_sink a os, depth, w =>
      (ostream_sink.flush os (w.record ⟨depth, a, .flush⟩), .returned)
  | .dist_sink a _, depth, w => (w.record ⟨depth, a, .flush⟩, .returned)
  | .mt_sink a _, depth, w => (w.record ⟨depth, a, .flush⟩, .returned)
  | .user_sink a _ flush_throws, depth, w =>
      (w.record ⟨depth, a, .flush⟩, if flush_throws then .thrown else .returned)

/-- The loop `for (auto& sink : sinks) sink->flush();` of `logger::flush`. -/
def flush_each : List sink → Nat → World → World × Outcome
  | [], _, w => (w, .returned)
  | s :: rest, depth, w =>
      match sink.flush s depth w with
      | (w1, .returned) => flush_each rest depth w1
      | (w1, .thrown) => (w1, .thrown)
      | (w1, .blocked) => (w1, .blocked)

/-- The loop shared by `logger::remove_sink` and `dist_sink::remove_sink`: erase the first
element whose pointer equals `to_remove` and return. -/
def remove_first (to_remove : Nat) : List sink → List sink
  | [] => []
  | s :: rest => if s.addr = to_remove then rest else s :: remove_first to_remove rest

/-! ## dist_sink -/

/-- The method `dist_sink::add_sink`. -/
def dist_sink.add_sink : sink → sink → sink
  | .dist_sink a sinks, s => .dist_sink a (sinks ++ [s])
  | other, _ => other

/-- The method `dist_sink::remove_sink`. -/
def dist_sink.remove_sink : sink → Nat → sink
  | .dist_sink a sinks, to_remove => .dist_sink a (remove_first to_remove sinks)
  | other, _ => other

/-- The children of a `dist_sink`. -/
def dist_sink.sinks : sink → List sink
  | .dist_sink _ sinks => sinks
  | _ => []

/-! ## The logger's buffer -/

/-- The call `buf.resize(n)` on a `std::vector<char>`: new elements are value-initialised. -/
def vector_resize (buf : List Char) (n : Nat) : List Char :=
  buf.take n ++ List.replicate (n - buf.length) NUL

/-- The assignment `buf[i] = c`; `none` when `i` is outside the vector. -/
def vector_set (buf : List Char) (i : Nat) (c : Char) : Option (List Char) :=
  if i < buf.length then some (buf.set i c) else none

/-- A store of `bytes` through the pointer `buf.data() + off`; `none` when the store would
leave the vector. -/
def mem_write (buf : List Char) (off : Nat) (bytes : List Char) : Option (List Char) :=
  if off + bytes.length ≤ buf.length then
    some (buf.take off ++ bytes ++ buf.drop (off + bytes.length))
  else none

/-- The call `strcpy_s(buf.data() + off, destsz, src)`: copies the C string at `src` with its
terminator; a string that does not fit in `destsz` is a constraint violation (`none`). -/
def strcpy_s (buf : List Char) (off destsz : Nat) (src : List Char) : Option (List Char) :=
  if strlen src < destsz then mem_write buf off (c_str src ++ [NUL]) else none

/-- The call `snprintf(buf.data() + off, n, ...)` (also `vsnprintf`) for a format that expands
to `text`: stores at most `n - 1` characters of `text` followed by the terminator.  The value
returned by the C function is `text.length`. -/
def snprintf (buf : List Char) (off n : Nat) (text : List Char) : Option (List Char) :=
  if n = 0 then some buf else mem_write buf off (text.take (n - 1) ++ [NUL])

/-! ## logger (`smolog.cpp`) -/

/-- The private state `struct _logger_state`. -/
structure _logger_state where
  sinks : List sink
  buf : List Char
  name : List Char

/-- The class `struct logger`. -/
structure logger where
  current_level : Level
  flush_level : Level
  _internal : _logger_state

namespace logger

/-- The constructor `logger::logger(const char * name)`; both thresholds default to `Debug`. -/
def new (name : List Char) : logger :=
  { current_level := Level.Debug, flush_level := Level.Debug,
    _internal := { sinks := [], buf := [], name := c_str name } }

/-- The method `logger::level_as_string`. -/
def level_as_string (level : Level) : List Char :=
  match level with
  | Level.Off => "off".toList
  | Level.Trace => "trace".toList
  | Level.Debug => "debug".toList
  | Level.Info => "info".toList
  | Level.Warning => "warn".toList
  | Level.Error => "error".toList
  | Level.Critical => "critical".toList
  | _ => "??".toList

/-- The method `logger::add_sink`. -/
def add_sink (lg : logger) (s : sink) : logger :=
  { lg with _internal := { lg._internal with sinks := lg._internal.sinks ++ [s] } }

/-- The method `logger::remove_sink(sink *)`. -/
def remove_sink (lg : logger) (to_remove : Nat) : logger :=
  { lg with _internal :=
      { lg._internal with sinks := remove_first to_remove lg._internal.sinks } }

/-- The overload `logger::remove_sink(std::shared_ptr<sink>&)`. -/
def remove_sink_ptr (lg : logger) (s : sink) : logger := lg.remove_sink s.addr

/-- The method `logger::set_name`. -/
def set_name (lg : logger) (name : List Char) : logger :=
  { lg with _internal := { lg._internal with name := c_str name } }

/-- The method `logger::get_name`. -/
def get_name (lg : logger) : List Char := c_str lg._internal.name

/-- The expansion of the format `" [%s] [%s] "` used by `emit_prompt`. -/
def prompt_text (level_string name : List Char) : List Char :=
  " [".toList ++ c_str level_string ++ "] [".toList ++ c_str name ++ "] ".toList

/-- The method `logger::emit_prompt`; `time_buf` is what `strftime` stored. -/
def emit_prompt (lg : logger) (level : Level) (time_buf : List Char) : Option logger :=
  let buf := lg._internal.buf
  let name := lg._internal.name
  let time_size := strlen time_buf
  let buf_size := buf.length
  let lnsize := (prompt_text (level_as_string level) name).length
  let buf1 := vector_resize buf (buf_size + time_size + lnsize + 1)
  match strcpy_s buf1 buf_size (time_size + 1) time_buf with
  | none => none
  | some buf2 =>
    match snprintf buf2 (buf_size + time_size) (lnsize + 1)
        (prompt_text (level_as_string level) name) with
    | none => none
    | some buf3 =>
      -- remove trailing \0
      let buf4 := vector_resize buf3 (buf3.length - 1)
      some { lg with _internal := { lg._internal with buf := buf4 } }

/-- The method `logger::format`; `expansion` is what `vsnprintf` produces for the caller's
format string and arguments. -/
def format (lg : logger) (expansion : List Char) : Option logger :=
  let buf := lg._internal.buf
  let size_req := 1 + expansion.length
  let prev_size := buf.length
  let buf1 := vector_resize buf (buf.length + size_req + 1)
  match snprintf buf1 prev_size size_req expansion with
  | none => none
  | some buf2 =>
    -- write newline
    match vector_set buf2 (buf2.length - 2) NL with
    | none => none
    | some buf3 =>
      match vector_set buf3 (buf3.length - 1) NUL with
      | none => none
      | some buf4 => some { lg with _internal := { lg._internal with buf := buf4 } }

/-- The method `logger::flush`. -/
def flush (lg : logger) (w : World) : World × Outcome :=
  flush_each lg._internal.sinks 0 w

/-- The method `logger::_log`.  The result is `none` when a store leaves the buffer, otherwise
the logger and the world after the call (or, for a call that never returns, at the point where
it waits) and how the call ended. -/
def _log (lg : logger) (level : Level) (time_buf expansion : List Char) (w : World) :
    Option (logger × World × Outcome) :=
  if lg.current_level > level then some (lg, w, .returned)
  else
    match lg.emit_prompt level time_buf with
    | none => none
    | some lg1 =>
      match lg1.format expansion with
      | none => none
      | some lg2 =>
        let buf := lg2._internal.buf
        match write_each lg2._internal.sinks 0
            { str := buf, size := buf.length - 1, level := level } w with
        | (w1, .thrown) => some (lg2, w1, .thrown)
        | (w1, .blocked) => some (lg2, w1, .blocked)
        | (w1, .returned) =>
          match (if level ≥ lg2.flush_level then lg2.flush w1 else (w1, .returned)) with
          | (w2, .thrown) => some (lg2, w2, .thrown)
          | (w2, .blocked) => some (lg2, w2, .blocked)
          | (w2, .returned) =>
            some ({ lg2 with _internal := { lg2._internal with buf := [] } }, w2, .returned)

end logger

/-! ## Vocabulary for stating the properties -/

/-- The calls of nesting depth `d` among `cs`, in order. -/
def at_depth (d : Nat) (cs : List Call) : List Call := cs.filter (fun c => c.depth = d)

/-- The calls recorded in `w1` after the ones already present in `w`. -/
def World.calls_since (w1 w : World) : List Call := w1.calls.drop w.calls.length

/-- The `write` of the sink returns (it neither throws nor waits for the mutex) whenever it
is called with the mutex of `mt_sink::write` in the state `locked`. -/
def sink.write_returns (s : sink) (locked : Bool) : Prop :=
  ∀ depth msg w, w.mut_locked = locked → (s.write depth msg w).2 = Outcome.returned

/-- The `write` of the sink throws when it is given `msg` with the mutex of `mt_sink::write`
in the state `locked`. -/
def sink.write_throws_on (s : sink) (msg : message) (locked : Bool) : Prop :=
  ∀ depth w, w.mut_locked = locked → (s.write depth msg w).2 = Outcome.thrown

/-- The `flush` of the sink returns, whatever the state of the world. -/
def sink.flush_returns (s : sink) : Prop :=
  ∀ depth w, (s.flush depth w).2 = Outcome.returned

/-- The buffer of the logger after `emit_prompt` and `format` have run. -/
def logger.rendered (lg : logger) (level : Level) (time_buf expansion : List Char) :
    List Char :=
  lg._internal.buf ++ c_str time_buf
    ++ logger.prompt_text (logger.level_as_string level) lg._internal.name
    ++ expansion ++ [NL, NUL]

/-- The message `_log` hands to the sinks: the rendered buffer, its size less one. -/
def logger.rendered_message (lg : logger) (level : Level) (time_buf expansion : List Char) :
    message :=
  { str := lg.rendered level time_buf expansion,
    size := (lg.rendered level time_buf expansion).length - 1,
    level := level }

/-- A call made on a logger by its owner: a log call, with what the clock and the formatter
produce for it, or an explicit `flush`. -/
inductive request where
  | log (level : Level) (time_buf expansion : List Char)
  | flush

/-- A sequence of calls on one logger, made by one thread.  A call that ends by an exception
is followed by the next call (the owner caught the exception); a call that never returns ends
the sequence, with `Outcome.blocked`.  A sequence that runs to its end gives
`Outcome.returned`. -/
def logger.run (lg : logger) (w : World) : List request → Option (logger × World × Outcome)
  | [] => some (lg, w, .returned)
  | .log level time_buf expansion :: rest =>
      match lg._log level time_buf expansion w with
      | none => none
      | some (lg1, w1, .blocked) => some (lg1, w1, .blocked)
      | some (lg1, w1, .returned) => logger.run lg1 w1 rest
      | some (lg1, w1, .thrown) => logger.run lg1 w1 rest
  | .flush :: rest =>
      match lg.flush w with
      | (w1, .blocked) => some (lg, w1, .blocked)
      | (w1, .returned) => logger.run lg w1 rest
      | (w1, .thrown) => logger.run lg w1 rest

/-! ## Concrete inputs -/

namespace demo

/-- A user-defined sink that records nothing but the calls it receives and never throws. -/
def spy (addr : Nat) : sink := sink.user_sink addr (fun _ => false) false

/-- A user-defined sink whose `write` throws on every message. -/
def write_thrower (addr : Nat) : sink := sink.user_sink addr (fun _ => true) false

/-- A user-defined sink whose `flush` throws. -/
def flush_thrower (addr : Nat) : sink := sink.user_sink addr (fun _ => false) true

/-- A timestamp as `strftime` renders `"[ %D %T ]"`. -/
def stamp : List Char := "[ 01/02/03 04:05:06 ]".toList

/-- A logger named `name` with the given thresholds and sinks, built with the constructor
and `add_sink`. -/
def make (name : String) (current_level flush_level : Level) (sinks : List sink) : logger :=
  sinks.foldl logger.add_sink
    { logger.new name.toList with current_level := current_level, flush_level := flush_level }

end demo

/-! # Lemmas and theorems -/

/-! ## The buffer operations -/

theorem vector_resize_grow (buf : List Char) (k : Nat) :
    vector_resize buf (buf.length + k) = buf ++ List.replicate k NUL := by
  simp [vector_resize]

theorem vector_resize_pop (l : List Char) (c : Char) :
    vector_resize (l ++ [c]) ((l ++ [c]).length - 1) = l := by
  simp [vector_resize]

theorem mem_write_append (pre mid post bytes : List Char) (h : bytes.length = mid.length) :
    mem_write (pre ++ mid ++ post) pre.length bytes = some (pre ++ bytes ++ post) := by
  simp [mem_write, h]

theorem strcpy_s_append (pre post src : List Char) :
    strcpy_s (pre ++ List.replicate (strlen src + 1) NUL ++ post) pre.length (strlen src + 1) src
      = some (pre ++ (c_str src ++ [NUL]) ++ post) := by
  have h : (c_str src ++ [NUL]).length = (List.replicate (strlen src + 1) NUL).length := by
    simp [strlen]
  simp only [strcpy_s, Nat.lt_succ_self, if_true]
  exact mem_write_append pre _ post _ h

theorem snprintf_append (pre post text : List Char) :
    snprintf (pre ++ List.replicate (text.length + 1) NUL ++ post) pre.length (text.length + 1) text
      = some (pre ++ (text ++ [NUL]) ++ post) := by
  have h : (text ++ [NUL]).length = (List.replicate (text.length + 1) NUL).length := by simp
  simp only [snprintf, Nat.succ_ne_zero, if_false, Nat.add_sub_cancel, List.take_length]
  exact mem_write_append pre _ post _ h

theorem logger.emit_prompt_eq (lg : logger) (level : Level) (time_buf : List Char) :
    lg.emit_prompt level time_buf =
      some { lg with _internal := { lg._internal with
        buf := lg._internal.buf ++ c_str time_buf
          ++ logger.prompt_text (logger.level_as_string level) lg._internal.name } } := by
  obtain ⟨cl, fl, sinks, buf, name⟩ := lg
  simp only [logger.emit_prompt]
  generalize logger.prompt_text (logger.level_as_string level) name = text
  have e1 : vector_resize buf (buf.length + strlen time_buf + text.length + 1)
      = buf ++ List.replicate (strlen time_buf + 1) NUL ++ List.replicate text.length NUL := by
    rw [Nat.add_assoc, Nat.add_assoc, vector_resize_grow, List.append_assoc,
      ← List.replicate_add]
    congr 2
    omega
  rw [e1, strcpy_s_append]
  have e2 : buf ++ (c_str time_buf ++ [NUL]) ++ List.replicate text.length NUL
      = (buf ++ c_str time_buf) ++ List.replicate (text.length + 1) NUL ++ [] := by
    simp [List.replicate_succ]
  have e3 : buf.length + strlen time_buf = (buf ++ c_str time_buf).length := by
    simp [strlen]
  simp only [e2, e3, snprintf_append]
  simp only [List.append_nil, ← List.append_assoc, vector_resize_pop]

theorem logger.format_eq (lg : logger) (expansion : List Char) :
    lg.format expansion =
      some { lg with _internal := { lg._internal with
        buf := lg._internal.buf ++ expansion ++ [NL, NUL] } } := by
  obtain ⟨cl, fl, sinks, buf, name⟩ := lg
  simp only [logger.format]
  have e1 : vector_resize buf (buf.length + (1 + expansion.length) + 1)
      = buf ++ List.replicate (expansion.length + 1) NUL ++ [NUL] := by
    rw [Nat.add_assoc, vector_resize_grow, List.append_assoc]
    congr 1
    rw [show 1 + expansion.length + 1 = (expansion.length + 1) + 1 by omega,
      List.replicate_succ' (expansion.length + 1)]
  rw [e1, show 1 + expansion.length = expansion.length + 1 by omega, snprintf_append]
  have e2 : (buf ++ (expansion ++ [NUL]) ++ [NUL]).length - 2 = (buf ++ expansion).length := by
    simp only [List.length_append, List.length_cons, List.length_nil]
    omega
  have e3 : buf ++ (expansion ++ [NUL]) ++ [NUL] = (buf ++ expansion) ++ NUL :: [NUL] := by
    simp
  simp only [e2]
  simp only [e3, vector_set, List.length_append, List.length_cons, List.length_nil,
    show buf.length + expansion.length < buf.length + expansion.length + (0 + 1 + 1) by omega,
    if_true]
  simp [List.set_append]

/-! ## Calls, nesting depth and the mutex -/

theorem record_calls (w : World) (c : Call) : (w.record c).calls = w.calls ++ [c] := rfl

theorem lock_guard_scope_end_fst (w : World) (o : Outcome) :
    (lock_guard_scope_end (w, o)).1.calls = w.calls
      ∧ (lock_guard_scope_end (w, o)).1.flushes = w.flushes
      ∧ (lock_guard_scope_end (w, o)).2 = o
      ∧ (o ≠ .blocked → (lock_guard_scope_end (w, o)).1.mut_locked = false) := by
  cases o
  · exact ⟨rfl, rfl, rfl, fun _ => rfl⟩
  · exact ⟨rfl, rfl, rfl, fun _ => rfl⟩
  · exact ⟨rfl, rfl, rfl, fun h => absurd rfl h⟩

mutual
theorem sink.write_frame : ∀ (s : sink) (d : Nat) (msg : message) (w : World),
    ∃ rest, (s.write d msg w).1.calls = w.calls ++ ⟨d, s.addr, .write msg⟩ :: rest
      ∧ (∀ c ∈ rest, d < c.depth ∧ c.op = .write msg)
      ∧ (s.write d msg w).1.flushes = w.flushes
      ∧ ((s.write d msg w).2 ≠ .blocked → (s.write d msg w).1.mut_locked = w.mut_locked)
  | .stdout_sink a, d, msg, w =>
      ⟨[], by simp [sink.write, stdout_sink.write, fputs, World.record, sink.addr]⟩
  | .stderr_sink a, d, msg, w =>
      ⟨[], by simp [sink.write, stderr_sink.write, fputs, World.record, sink.addr]⟩
  | .file_sink a fd, d, msg, w =>
      ⟨[], by simp [sink.write, file_sink.write, fputs, World.record, sink.addr]⟩
  | .ostream_sink a os, d, msg, w =>
      ⟨[], by simp [sink.write, ostream_sink.write, ostream_write, World.record, sink.addr]⟩
  | .user_sink a wt ft, d, msg, w => ⟨[], by simp [sink.write, World.record, sink.addr]⟩
  | .mt_sink a wrapped, d, msg, w => by
      rw [sink.write]
      by_cases hl : w.mut_locked = true
      · rw [if_pos hl]
        exact ⟨[], rfl, by simp, rfl, fun h => absurd rfl h⟩
      · rw [if_neg hl]
        obtain ⟨rest, h1, h2, h3, _⟩ :=
          sink.write_frame wrapped (d + 1) msg (w.record ⟨d, a, .write msg⟩).lock
        rcases hsw : sink.write wrapped (d + 1) msg (w.record ⟨d, a, .write msg⟩).lock
          with ⟨w1, o⟩
        rw [hsw] at h1 h3
        simp only at h1 h3
        obtain ⟨g1, g2, g3, g4⟩ := lock_guard_scope_end_fst w1 o
        refine ⟨⟨d + 1, wrapped.addr, .write msg⟩ :: rest, ?_, ?_, ?_, ?_⟩
        · rw [g1, h1]
          show (w.calls ++ [_]) ++ _ = _
          rw [List.append_assoc]
          rfl
        · intro c hc
          rcases List.mem_cons.1 hc with rfl | hc
          · exact ⟨Nat.lt_succ_self d, rfl⟩
          · exact ⟨Nat.lt_trans (Nat.lt_succ_self d) (h2 c hc).1, (h2 c hc).2⟩
        · rw [g2, h3]
          rfl
        · intro hb
          rw [g3] at hb
          rw [g4 hb]
          exact (Bool.eq_false_iff.mpr hl).symm
  | .dist_sink a sinks, d, msg, w => by
      obtain ⟨new, h1, h2, h3, h4⟩ :=
        write_each_frame sinks (d + 1) msg (w.record ⟨d, a, .write msg⟩)
      refine ⟨new, ?_, ?_, ?_, ?_⟩
      · rw [sink.write, h1, record_calls, List.append_assoc]
        rfl
      · intro c hc
        exact ⟨(h2 c hc).1, (h2 c hc).2⟩
      · rw [sink.write, h3]
        rfl
      · rw [sink.write]
        intro hb
        rw [h4 hb]
        rfl
theorem write_each_frame : ∀ (l : List sink) (d : Nat) (msg : message) (w : World),
    ∃ new, (write_each l d msg w).1.calls = w.calls ++ new
      ∧ (∀ c ∈ new, d ≤ c.depth ∧ c.op = .write msg)
      ∧ (write_each l d msg w).1.flushes = w.flushes
      ∧ ((write_each l d msg w).2 ≠ .blocked →
          (write_each l d msg w).1.mut_locked = w.mut_locked)
  | [], d, msg, w => ⟨[], by simp [write_each]⟩
  | s :: rest, d, msg, w => by
      obtain ⟨r1, h1, h2, h3, h4⟩ := sink.write_frame s d msg w
      rw [write_each]
      rcases hsw : sink.write s d msg w with ⟨w1, o⟩
      rw [hsw] at h1 h3 h4
      simp only at h1 h3 h4
      have hr1 : ∀ c ∈ (⟨d, s.addr, .write msg⟩ :: r1 : List Call),
          d ≤ c.depth ∧ c.op = .write msg := by
        intro c hc
        rcases List.mem_cons.1 hc with rfl | hc
        · exact ⟨Nat.le_refl _, rfl⟩
        · exact ⟨Nat.le_of_lt (h2 c hc).1, (h2 c hc).2⟩
      cases o with
      | thrown => exact ⟨⟨d, s.addr, .write msg⟩ :: r1, h1, hr1, h3, fun _ => h4 (by simp)⟩
      | blocked => exact ⟨⟨d, s.addr, .write msg⟩ :: r1, h1, hr1, h3, fun h => absurd rfl h⟩
      | returned =>
        obtain ⟨r2, g1, g2, g3, g4⟩ := write_each_frame rest d msg w1
        refine ⟨⟨d, s.addr, .write msg⟩ :: r1 ++ r2, ?_, ?_, ?_, ?_⟩
        · rw [g1, h1]
          simp
        · intro c hc
          rcases List.mem_append.1 hc with hc | hc
          · exact hr1 c hc
          · exact g2 c hc
        · rw [g3, h3]
        · intro hb
          rw [g4 hb, h4 (by simp)]
end

theorem at_depth_deeper (d : Nat) (op : Op) (r : List Call)
    (h : ∀ c ∈ r, d < c.depth ∧ c.op = op) : at_depth d r = [] := by
  simp only [at_depth, List.filter_eq_nil_iff, decide_eq_true_eq]
  intro c hc
  exact Nat.ne_of_gt (h c hc).1

theorem at_depth_append (d : Nat) (a b : List Call) :
    at_depth d (a ++ b) = at_depth d a ++ at_depth d b := by
  simp [at_depth]

theorem at_depth_cons_self (d a : Nat) (op : Op) (r : List Call) :
    at_depth d (⟨d, a, op⟩ :: r) = ⟨d, a, op⟩ :: at_depth d r := by
  simp [at_depth]

theorem calls_since_append (w1 w : World) (new : List Call) (h : w1.calls = w.calls ++ new) :
    w1.calls_since w = new := by
  simp [World.calls_since, h]

/-- The write loop over sinks whose `write` returns: it returns with the mutex in the state
it had, and the calls it makes itself are one `write` per sink, in order. -/
theorem write_each_returns (msg : message) : ∀ (l : List sink) (d : Nat) (w : World),
    (∀ s ∈ l, s.write_returns w.mut_locked) →
    (write_each l d msg w).2 = Outcome.returned
      ∧ ∃ new, (write_each l d msg w).1.calls = w.calls ++ new
        ∧ at_depth d new = l.map (fun s => ⟨d, s.addr, .write msg⟩)
        ∧ (∀ c ∈ new, d ≤ c.depth ∧ c.op = .write msg)
        ∧ (write_each l d msg w).1.flushes = w.flushes
        ∧ (write_each l d msg w).1.mut_locked = w.mut_locked
  | [], d, w, _ => ⟨rfl, [], by simp [write_each, at_depth]⟩
  | s :: rest, d, w, h => by
      obtain ⟨r1, h1, h2, h3, h4⟩ := sink.write_frame s d msg w
      have hs := h s (List.mem_cons_self _ _) d msg w rfl
      rw [write_each]
      rcases hsw : sink.write s d msg w with ⟨w1, o⟩
      rw [hsw] at h1 h3 h4 hs
      simp only at h1 h3 h4 hs
      subst hs
      have hl : w1.mut_locked = w.mut_locked := h4 (by simp)
      obtain ⟨g0, r2, g1, g2, g3, g4, g5⟩ :=
        write_each_returns msg rest d w1
          (fun t ht => hl ▸ h t (List.mem_cons_of_mem _ ht))
      refine ⟨g0, ⟨d, s.addr, .write msg⟩ :: r1 ++ r2, ?_, ?_, ?_, ?_, ?_⟩
      · rw [g1, h1]
        simp
      · rw [at_depth_append, at_depth_cons_self, at_depth_deeper d _ r1 h2, g2]
        rfl
      · intro c hc
        rcases List.mem_append.1 hc with hc | hc
        · rcases List.mem_cons.1 hc with rfl | hc
          · exact ⟨Nat.le_refl _, rfl⟩
          · exact ⟨Nat.le_of_lt (h2 c hc).1, (h2 c hc).2⟩
        · exact g3 c hc
      · rw [g4, h3]
      · rw [g5, hl]

/-- The write loop stops at the first sink that throws: the sinks before it and that sink
receive one `write` each, the sinks after it receive nothing. -/
theorem write_each_throws (msg : message) (si : sink) (post : List sink) :
    ∀ (pre : List sink) (d : Nat) (w : World),
    si.write_throws_on msg w.mut_locked →
    (∀ s ∈ pre, s.write_returns w.mut_locked) →
    (write_each (pre ++ si :: post) d msg w).2 = Outcome.thrown
      ∧ ∃ new, (write_each (pre ++ si :: post) d msg w).1.calls = w.calls ++ new
        ∧ at_depth d new = (pre ++ [si]).map (fun s => ⟨d, s.addr, .write msg⟩)
        ∧ (write_each (pre ++ si :: post) d msg w).1.flushes = w.flushes
  | [], d, w, hsi, _ => by
      obtain ⟨r1, h1, h2, h3, _⟩ := sink.write_frame si d msg w
      have hs := hsi d w rfl
      rw [List.nil_append, write_each]
      rcases hsw : sink.write si d msg w with ⟨w1, o⟩
      rw [hsw] at h1 h3 hs
      simp only at h1 h3 hs
      subst hs
      refine ⟨rfl, ⟨d, si.addr, .write msg⟩ :: r1, h1, ?_, h3⟩
      rw [at_depth_cons_self, at_depth_deeper d _ r1 h2]
      rfl
  | s :: rest, d, w, hsi, h => by
      obtain ⟨r1, h1, h2, h3, h4⟩ := sink.write_frame s d msg w
      have hs := h s (List.mem_cons_self _ _) d msg w rfl
      rw [List.cons_append, write_each]
      rcases hsw : sink.write s d msg w with ⟨w1, o⟩
      rw [hsw] at h1 h3 h4 hs
      simp only at h1 h3 h4 hs
      subst hs
      have hl : w1.mut_locked = w.mut_locked := h4 (by simp)
      obtain ⟨g0, r2, g1, g2, g4⟩ :=
        write_each_throws msg si post rest d w1 (hl ▸ hsi)
          (fun t ht => hl ▸ h t (List.mem_cons_of_mem _ ht))
      refine ⟨g0, ⟨d, s.addr, .write msg⟩ :: r1 ++ r2, ?_, ?_, ?_⟩
      · rw [g1, h1]
        simp
      · rw [at_depth_append, at_depth_cons_self, at_depth_deeper d _ r1 h2, g2]
        rfl
      · rw [g4, h3]

theorem sink.flush_frame (s : sink) (d : Nat) (w : World) :
    (s.flush d w).1.calls = w.calls ++ [⟨d, s.addr, .flush⟩]
      ∧ (s.flush d w).1.out = w.out
      ∧ (s.flush d w).1.mut_locked = w.mut_locked
      ∧ (s.flush d w).2 ≠ .blocked := by
  cases s with
  | user_sink a wt ft => cases ft <;> exact ⟨rfl, rfl, rfl, by simp [sink.flush]⟩
  | stdout_sink a => exact ⟨rfl, rfl, rfl, by simp [sink.flush]⟩
  | stderr_sink a => exact ⟨rfl, rfl, rfl, by simp [sink.flush]⟩
  | file_sink a fd => exact ⟨rfl, rfl, rfl, by simp [sink.flush]⟩
  | ostream_sink a os => exact ⟨rfl, rfl, rfl, by simp [sink.flush]⟩
  | dist_sink a l => exact ⟨rfl, rfl, rfl, by simp [sink.flush]⟩
  | mt_sink a x => exact ⟨rfl, rfl, rfl, by simp [sink.flush]⟩

/-- The flush loop: every call it causes is a `flush` made by the loop itself; it never
waits for the mutex and leaves it as it was. -/
theorem flush_each_frame : ∀ (l : List sink) (d : Nat) (w : World),
    ∃ new, (flush_each l d w).1.calls = w.calls ++ new
      ∧ (∀ c ∈ new, c.depth = d ∧ c.op = .flush ∧ ∃ s ∈ l, c.addr = s.addr)
      ∧ (flush_each l d w).1.out = w.out
      ∧ (flush_each l d w).1.mut_locked = w.mut_locked
      ∧ (flush_each l d w).2 ≠ .blocked
  | [], d, w => ⟨[], by simp [flush_each]⟩
  | s :: rest, d, w => by
      obtain ⟨h1, h3, h4, h5⟩ := sink.flush_frame s d w
      rw [flush_each]
      rcases hsw : sink.flush s d w with ⟨w1, o⟩
      rw [hsw] at h1 h3 h4 h5
      simp only at h1 h3 h4 h5
      cases o with
      | blocked => exact absurd rfl h5
      | thrown =>
        refine ⟨[⟨d, s.addr, .flush⟩], h1, ?_, h3, h4, by simp⟩
        intro c hc
        rw [List.mem_singleton] at hc
        subst hc
        exact ⟨rfl, rfl, s, List.mem_cons_self _ _, rfl⟩
      | returned =>
        obtain ⟨r2, g1, g2, g3, g4, g5⟩ := flush_each_frame rest d w1
        refine ⟨⟨d, s.addr, .flush⟩ :: r2, ?_, ?_, ?_, ?_, g5⟩
        · rw [g1, h1]
          simp
        · intro c hc
          rcases List.mem_cons.1 hc with rfl | hc
          · exact ⟨rfl, rfl, s, List.mem_cons_self _ _, rfl⟩
          · obtain ⟨a, b, t, ht, e⟩ := g2 c hc
            exact ⟨a, b, t, List.mem_cons_of_mem _ ht, e⟩
        · rw [g3, h3]
        · rw [g4, h4]

/-- The flush loop over sinks whose `flush` never throws: it returns after one `flush` per
sink, in order. -/
theorem flush_each_returns : ∀ (l : List sink) (d : Nat) (w : World),
    (∀ s ∈ l, s.flush_returns) →
    (flush_each l d w).2 = Outcome.returned
      ∧ (flush_each l d w).1.calls = w.calls ++ l.map (fun s => ⟨d, s.addr, .flush⟩)
  | [], d, w, _ => ⟨rfl, by simp [flush_each]⟩
  | s :: rest, d, w, h => by
      obtain ⟨h1, _⟩ := sink.flush_frame s d w
      have hs := h s (List.mem_cons_self _ _) d w
      rw [flush_each]
      rcases hsw : sink.flush s d w with ⟨w1, o⟩
      rw [hsw] at h1 hs
      simp only at h1 hs
      subst hs
      obtain ⟨g0, g1⟩ :=
        flush_each_returns rest d w1 (fun t ht => h t (List.mem_cons_of_mem _ ht))
      refine ⟨g0, ?_⟩
      rw [g1, h1]
      simp

/-! ## The log call -/

/-- A log call that passes the threshold: the buffer receives the prompt, the expansion, a
newline and a terminator, and the message views that buffer without its last byte. -/
theorem logger._log_dispatch (lg : logger) (level : Level) (time_buf expansion : List Char)
    (w : World) (h : lg.current_level ≤ level) :
    lg._log level time_buf expansion w =
      match write_each lg._internal.sinks 0 (lg.rendered_message level time_buf expansion) w with
      | (w1, .thrown) =>
        some ({ lg with _internal := { lg._internal with
          buf := lg.rendered level time_buf expansion } }, w1, .thrown)
      | (w1, .blocked) =>
        some ({ lg with _internal := { lg._internal with
          buf := lg.rendered level time_buf expansion } }, w1, .blocked)
      | (w1, .returned) =>
        match (if level ≥ lg.flush_level then flush_each lg._internal.sinks 0 w1
            else (w1, .returned)) with
        | (w2, .thrown) =>
          some ({ lg with _internal := { lg._internal with
            buf := lg.rendered level time_buf expansion } }, w2, .thrown)
        | (w2, .blocked) =>
          some ({ lg with _internal := { lg._internal with
            buf := lg.rendered level time_buf expansion } }, w2, .blocked)
        | (w2, .returned) =>
          some ({ lg with _internal := { lg._internal with buf := [] } }, w2, .returned) := by
  simp only [logger._log, gt_iff_lt, Nat.not_lt.mpr h, if_false, logger.emit_prompt_eq,
    logger.format_eq, logger.flush, logger.rendered_message, logger.rendered]

/-- The shape of every log call that passes the threshold: it produces a result, keeps the
sinks, the thresholds and the name; its calls are writes of the rendered message followed by
flushes made by the logger itself, and there are no flushes below the flush threshold. -/
theorem logger._log_shape (lg : logger) (level : Level) (time_buf expansion : List Char)
    (w : World) (h : lg.current_level ≤ level) :
    ∃ lg1 w1 o new fl,
      lg._log level time_buf expansion w = some (lg1, w1, o)
      ∧ w1.calls = w.calls ++ (new ++ fl)
      ∧ (write_each lg._internal.sinks 0 (lg.rendered_message level time_buf expansion) w).1.calls
          = w.calls ++ new
      ∧ (∀ c ∈ new, c.op = .write (lg.rendered_message level time_buf expansion))
      ∧ (∀ c ∈ fl, c.depth = 0 ∧ c.op = .flush ∧ ∃ s ∈ lg._internal.sinks, c.addr = s.addr)
      ∧ (level < lg.flush_level → fl = [])
      ∧ ((write_each lg._internal.sinks 0
            (lg.rendered_message level time_buf expansion) w).2 = .thrown →
          fl = [] ∧ o = .thrown ∧ lg1._internal.buf = lg.rendered level time_buf expansion)
      ∧ ((write_each lg._internal.sinks 0
            (lg.rendered_message level time_buf expansion) w).2 = .returned →
          lg.flush_level ≤ level → (∀ s ∈ lg._internal.sinks, s.flush_returns) →
          fl = lg._internal.sinks.map (fun s => ⟨0, s.addr, .flush⟩) ∧ o = .returned)
      ∧ (o = .returned → lg1._internal.buf = [])
      ∧ lg1._internal.sinks = lg._internal.sinks
      ∧ lg1._internal.name = lg._internal.name
      ∧ lg1.current_level = lg.current_level
      ∧ lg1.flush_level = lg.flush_level
      ∧ ((write_each lg._internal.sinks 0
            (lg.rendered_message level time_buf expansion) w).2 = .returned →
          level < lg.flush_level → o = .returned)
      ∧ (o ≠ .blocked → w1.mut_locked = w.mut_locked) := by
  rw [logger._log_dispatch lg level time_buf expansion w h]
  obtain ⟨new, h1, h2, h3, h4⟩ :=
    write_each_frame lg._internal.sinks 0 (lg.rendered_message level time_buf expansion) w
  rcases hwe : write_each lg._internal.sinks 0
      (lg.rendered_message level time_buf expansion) w with ⟨w1, o⟩
  rw [hwe] at h1 h3 h4
  simp only at h1 h3 h4
  cases o with
  | thrown =>
    refine ⟨_, w1, .thrown, new, [], rfl, by simpa using h1, h1, fun c hc => (h2 c hc).2,
      by simp, fun _ => rfl, fun _ => ⟨rfl, rfl, rfl⟩, (fun hc => by cases hc),
      (fun hc => by cases hc), rfl, rfl, rfl, rfl, (fun hc => by cases hc),
      fun _ => h4 (by simp)⟩
  | blocked =>
    refine ⟨_, w1, .blocked, new, [], rfl, by simpa using h1, h1, fun c hc => (h2 c hc).2,
      by simp, fun _ => rfl, (fun hc => by cases hc), (fun hc => by cases hc),
      (fun hc => by cases hc), rfl, rfl, rfl, rfl, (fun hc => by cases hc),
      fun hb => absurd rfl hb⟩
  | returned =>
    have hl1 : w1.mut_locked = w.mut_locked := h4 (by simp)
    by_cases hf : level ≥ lg.flush_level
    · obtain ⟨fl, f1, f2, _, f4, f5⟩ := flush_each_frame lg._internal.sinks 0 w1
      simp only [hf, if_true]
      rcases hfe : flush_each lg._internal.sinks 0 w1 with ⟨w2, o2⟩
      rw [hfe] at f1 f4 f5
      simp only at f1 f4 f5
      have hfl : (∀ s ∈ lg._internal.sinks, s.flush_returns) →
          fl = lg._internal.sinks.map (fun s => ⟨0, s.addr, .flush⟩) ∧ o2 = .returned := by
        intro hr
        obtain ⟨g0, g1⟩ := flush_each_returns lg._internal.sinks 0 w1 hr
        rw [hfe] at g0 g1
        simp only at g0 g1
        rw [f1] at g1
        exact ⟨List.append_cancel_left g1, g0⟩
      cases o2 with
      | blocked => exact absurd rfl f5
      | thrown =>
        refine ⟨_, w2, .thrown, new, fl, rfl, by rw [f1, h1, List.append_assoc], h1,
          fun c hc => (h2 c hc).2, f2, fun hlt => absurd hf (Nat.not_le.mpr hlt),
          (fun hc => by cases hc), fun _ _ hr => hfl hr, (fun hc => by cases hc),
          rfl, rfl, rfl, rfl, fun _ hlt => absurd hf (Nat.not_le.mpr hlt),
          fun _ => by rw [f4, hl1]⟩
      | returned =>
        refine ⟨_, w2, .returned, new, fl, rfl, by rw [f1, h1, List.append_assoc], h1,
          fun c hc => (h2 c hc).2, f2, fun hlt => absurd hf (Nat.not_le.mpr hlt),
          (fun hc => by cases hc), fun _ _ hr => hfl hr, fun _ => rfl, rfl, rfl, rfl, rfl,
          fun _ _ => rfl, fun _ => by rw [f4, hl1]⟩
    · simp only [hf, if_false]
      refine ⟨_, w1, .returned, new, [], rfl, by simpa using h1, h1,
        fun c hc => (h2 c hc).2, by simp, fun _ => rfl, (fun hc => by cases hc),
        fun _ hle => False.elim hle, fun _ => rfl, rfl, rfl, rfl, rfl, fun _ _ => rfl,
        fun _ => hl1⟩

/-- A log call that passes the threshold on a logger all of whose sink calls return: the
call returns, the buffer is cleared, the mutex is as it was, and the logger's own calls are
one `write` per sink followed, at or above the flush threshold, by one `flush` per sink. -/
theorem logger._log_all_return (lg : logger) (level : Level) (time_buf expansion : List Char)
    (w : World) (hlevel : lg.current_level ≤ level)
    (hw : ∀ s ∈ lg._internal.sinks, s.write_returns w.mut_locked)
    (hf : ∀ s ∈ lg._internal.sinks, s.flush_returns) :
    ∃ w1, lg._log level time_buf expansion w
        = some ({ lg with _internal := { lg._internal with buf := [] } }, w1, .returned)
      ∧ at_depth 0 (w1.calls_since w)
          = lg._internal.sinks.map
              (fun s => ⟨0, s.addr, .write (lg.rendered_message level time_buf expansion)⟩)
            ++ (if lg.flush_level ≤ level
                then lg._internal.sinks.map (fun s => ⟨0, s.addr, .flush⟩) else [])
      ∧ w1.mut_locked = w.mut_locked := by
  obtain ⟨lg1, w1, o, new, fl, h1, h2, h3, _, h5, h6, _, h8, h9, h10, h11, h12, h13, h14,
      h15⟩ := logger._log_shape lg level time_buf expansion w hlevel
  obtain ⟨g0, new2, g1, g2, _⟩ := write_each_returns
    (lg.rendered_message level time_buf expansion) lg._internal.sinks 0 w hw
  have hn : new2 = new := List.append_cancel_left (g1.symm.trans h3)
  subst hn
  have ho : o = .returned := by
    by_cases hfl : lg.flush_level ≤ level
    · exact (h8 g0 hfl hf).2
    · exact h14 g0 (Nat.lt_of_not_le hfl)
  subst ho
  have hlg : lg1 = { lg with _internal := { lg._internal with buf := [] } } := by
    have hb := h9 rfl
    obtain ⟨cl1, fl1, s1, b1, n1⟩ := lg1
    simp only at hb h10 h11 h12 h13
    simp only [hb, h10, h11, h12, h13]
  refine ⟨w1, by rw [h1, hlg], ?_, h15 (by simp)⟩
  rw [calls_since_append w1 w _ h2, at_depth_append, g2]
  congr 1
  by_cases hfl : lg.flush_level ≤ level
  · rw [if_pos hfl, (h8 g0 hfl hf).1]
    simp [at_depth]
  · rw [if_neg hfl, h6 (Nat.lt_of_not_le hfl)]
    rfl

/-! ## C2: suppressed calls -/

/-- C2: a log call whose severity is below `current_level` returns at once: the world (the
calls received by sinks and every stream) and the logger (sinks, name, buffer, thresholds) are
exactly what they were. -/
theorem logger._log_below_threshold (lg : logger) (level : Level)
    (time_buf expansion : List Char) (w : World) (h : level < lg.current_level) :
    lg._log level time_buf expansion w = some (lg, w, Outcome.returned) := by
  simp [logger._log, h]

/-- Witness for C2: a Trace call on a logger with the default threshold Debug. -/
theorem logger._log_below_threshold_witness :
    Level.Trace < (demo.make "net" Level.Debug Level.Debug [demo.spy 1]).current_level
    ∧ (demo.make "net" Level.Debug Level.Debug [demo.spy 1])._log Level.Trace demo.stamp
        "retry 3".toList World.empty
      = some (demo.make "net" Level.Debug Level.Debug [demo.spy 1], World.empty,
          Outcome.returned) :=
  ⟨by decide, logger._log_below_threshold _ _ _ _ _ (by decide)⟩

/-! ## C1: dispatch of a call that passes the threshold -/

/-- C1, as stated, fails when a sink throws: with sinks `[write_thrower 1, stdout_sink 2]` and
an Info call on thresholds Debug/Debug, the only call any sink receives is the `write` on the
sink at address 1; the sink at address 2 receives nothing and nothing reaches `stdout`. -/
theorem logger._log_thrower_starves_later_sink :
    ((demo.make "net" Level.Debug Level.Debug [demo.write_thrower 1, sink.stdout_sink 2])._log
        Level.Info demo.stamp "retry 3".toList World.empty).map
      (fun r => (r.2.1.calls.map (fun c => (c.depth, c.addr)), r.2.1.out Stream.stdout, r.2.2))
      = some ([(0, 1)], [], Outcome.thrown) := by
  decide

/-- C1 (amended): for every logger state and every log call with `current_level ≤ level`,
provided the `write` of every attached sink returns (it neither throws nor waits for the mutex
of `mt_sink::write`, in the state the mutex has when the log call is made), the calls made by
the logger itself are one `write` per attached sink, in the order of the sink list, all with
one and the same message of the call's severity, followed only by `flush` calls. -/
theorem logger._log_writes_each_sink_once (lg : logger) (level : Level)
    (time_buf expansion : List Char) (w : World) (hlevel : lg.current_level ≤ level)
    (hret : ∀ s ∈ lg._internal.sinks, s.write_returns w.mut_locked) :
    ∃ lg1 w1 o msg fl,
      lg._log level time_buf expansion w = some (lg1, w1, o)
      ∧ msg.level = level
      ∧ at_depth 0 (w1.calls_since w)
          = lg._internal.sinks.map (fun s => ⟨0, s.addr, Op.write msg⟩) ++ fl
      ∧ ∀ c ∈ fl, c.op = Op.flush := by
  obtain ⟨lg1, w1, o, new, fl, h1, h2, h3, _, h5, _⟩ :=
    logger._log_shape lg level time_buf expansion w hlevel
  obtain ⟨_, new2, g1, g2, _⟩ := write_each_returns
    (lg.rendered_message level time_buf expansion) lg._internal.sinks 0 w hret
  have hn : new2 = new := List.append_cancel_left (g1.symm.trans h3)
  subst hn
  refine ⟨lg1, w1, o, lg.rendered_message level time_buf expansion, fl, h1, rfl, ?_,
    fun c hc => (h5 c hc).2.1⟩
  rw [calls_since_append w1 w _ h2, at_depth_append, g2]
  congr 1
  simp only [at_depth, List.filter_eq_self, decide_eq_true_eq]
  exact fun c hc => (h5 c hc).1

/-- Witness for C1 (amended): an Info call on a logger with a spy and a wrapped
`stdout_sink`, made with the mutex free. -/
theorem logger._log_writes_each_sink_once_witness :
    ∃ lg1 w1 o msg fl,
      (demo.make "net" Level.Debug Level.Debug
          [demo.spy 1, sink.mt_sink 2 (sink.stdout_sink 3)])._log
          Level.Info demo.stamp "retry 3".toList World.empty = some (lg1, w1, o)
      ∧ msg.level = Level.Info
      ∧ at_depth 0 (w1.calls_since World.empty)
          = (demo.make "net" Level.Debug Level.Debug
              [demo.spy 1, sink.mt_sink 2 (sink.stdout_sink 3)])._internal.sinks.map
              (fun s => ⟨0, s.addr, Op.write msg⟩) ++ fl
      ∧ ∀ c ∈ fl, c.op = Op.flush :=
  logger._log_writes_each_sink_once _ _ _ _ _ (by decide) (by
    intro s hs
    have hs2 : s = demo.spy 1 ∨ s = sink.mt_sink 2 (sink.stdout_sink 3) := by
      simpa [demo.make, logger.new, logger.add_sink] using hs
    rcases hs2 with rfl | rfl
    · intro d m w _
      rfl
    · intro d m w hw
      have hfree : w.mut_locked = false := hw
      simp [sink.write, hfree, lock_guard_scope_end])

/-! ## C9: the threshold `Off` -/

/-- C9, as stated, fails: on a logger whose `current_level` is `Off` an Info call is not
suppressed; the attached sink receives a `write` and a `flush`. -/
theorem logger._log_threshold_off_dispatches :
    ((demo.make "net" Level.Off Level.Debug [demo.spy 1])._log
        Level.Info demo.stamp "retry 3".toList World.empty).map
      (fun r => (r.2.1.calls.map (fun c => (c.depth, c.addr, c.op == Op.flush)), r.2.2))
      = some ([(0, 1, false), (0, 1, true)], Outcome.returned) := by
  decide

/-- C9 (amended): `Off` is the least level, so a logger whose `current_level` is `Off`
suppresses no call: at every severity the message is rendered and, provided the `write` of
every attached sink returns (it neither throws nor waits for the mutex of `mt_sink::write`),
every attached sink receives one `write` of it from the logger, in the order of the sink
list. -/
theorem logger._log_threshold_off_suppresses_nothing (lg : logger) (level : Level)
    (time_buf expansion : List Char) (w : World) (hoff : lg.current_level = Level.Off)
    (hret : ∀ s ∈ lg._internal.sinks, s.write_returns w.mut_locked) :
    ∃ lg1 w1 o msg fl,
      lg._log level time_buf expansion w = some (lg1, w1, o)
      ∧ msg.level = level
      ∧ at_depth 0 (w1.calls_since w)
          = lg._internal.sinks.map (fun s => ⟨0, s.addr, Op.write msg⟩) ++ fl
      ∧ ∀ c ∈ fl, c.op = Op.flush := by
  have hlevel : lg.current_level ≤ level := by
    rw [hoff]
    exact Nat.zero_le level
  obtain ⟨lg1, w1, o, new, fl, h1, h2, h3, _, h5, _⟩ :=
    logger._log_shape lg level time_buf expansion w hlevel
  obtain ⟨_, new2, g1, g2, _⟩ := write_each_returns
    (lg.rendered_message level time_buf expansion) lg._internal.sinks 0 w hret
  have hn : new2 = new := List.append_cancel_left (g1.symm.trans h3)
  subst hn
  refine ⟨lg1, w1, o, lg.rendered_message level time_buf expansion, fl, h1, rfl, ?_,
    fun c hc => (h5 c hc).2.1⟩
  rw [calls_since_append w1 w _ h2, at_depth_append, g2]
  congr 1
  simp only [at_depth, List.filter_eq_self, decide_eq_true_eq]
  exact fun c hc => (h5 c hc).1

/-- Witness for C9 (amended): a Trace call on a logger whose `current_level` is `Off`. -/
theorem logger._log_threshold_off_suppresses_nothing_witness :
    (demo.make "net" Level.Off Level.Debug [demo.spy 1]).current_level = Level.Off
    ∧ ∃ lg1 w1 o msg fl,
      (demo.make "net" Level.Off Level.Debug [demo.spy 1])._log
          Level.Trace demo.stamp "retry 3".toList World.empty = some (lg1, w1, o)
      ∧ msg.level = Level.Trace
      ∧ at_depth 0 (w1.calls_since World.empty)
          = (demo.make "net" Level.Off Level.Debug [demo.spy 1])._internal.sinks.map
              (fun s => ⟨0, s.addr, Op.write msg⟩) ++ fl
      ∧ ∀ c ∈ fl, c.op = Op.flush :=
  ⟨rfl, logger._log_threshold_off_suppresses_nothing _ _ _ _ _ rfl (by
    intro s hs
    have hs2 : s = demo.spy 1 := by
      simpa [demo.make, logger.new, logger.add_sink] using hs
    subst hs2
    intro d m w _
    rfl)⟩

/-! ## C3: flushing -/

/-- C3, as stated, fails in two ways.  A call at or above `flush_level` but below
`current_level` is suppressed and flushes nothing (thresholds Error/Debug, an Info call: no
call reaches the sink).  And a sink whose `flush` throws ends the flush loop: with sinks
`[flush_thrower 1, spy 2]` the sink at address 2 receives its `write` but no `flush`. -/
theorem logger._log_flush_not_reached :
    ((demo.make "net" Level.Error Level.Debug [demo.spy 1])._log
        Level.Info demo.stamp "retry 3".toList World.empty).map
      (fun r => (r.2.1.calls.map (fun c => (c.depth, c.addr, c.op == Op.flush)), r.2.2))
      = some ([], Outcome.returned)
    ∧ ((demo.make "net" Level.Debug Level.Debug [demo.flush_thrower 1, demo.spy 2])._log
        Level.Info demo.stamp "retry 3".toList World.empty).map
      (fun r => (r.2.1.calls.map (fun c => (c.depth, c.addr, c.op == Op.flush)), r.2.2))
      = some ([(0, 1, false), (0, 2, false), (0, 1, true)], Outcome.thrown) := by
  decide

/-- C3 (amended): for every logger state and every log call with severity `level`:
if `current_level ≤ level`, `flush_level ≤ level` and the `write` and the `flush` of every
attached sink return (no `write` throws or waits for the mutex of `mt_sink::write`, no `flush`
throws), the log call returns and the logger's own calls are one `write` per sink and then one
`flush` per sink, both in the order of the sink list (so every sink is flushed after its
write); if `level < flush_level` the log call causes no `flush` call at all. -/
theorem logger._log_flushes_at_flush_level (lg : logger) (level : Level)
    (time_buf expansion : List Char) (w : World) :
    (lg.current_level ≤ level → lg.flush_level ≤ level →
      (∀ s ∈ lg._internal.sinks, s.write_returns w.mut_locked) →
      (∀ s ∈ lg._internal.sinks, s.flush_returns) →
      ∃ lg1 w1 msg,
        lg._log level time_buf expansion w = some (lg1, w1, Outcome.returned)
        ∧ at_depth 0 (w1.calls_since w)
          = lg._internal.sinks.map (fun s => ⟨0, s.addr, Op.write msg⟩)
            ++ lg._internal.sinks.map (fun s => ⟨0, s.addr, Op.flush⟩))
    ∧ (level < lg.flush_level →
      ∃ lg1 w1 o,
        lg._log level time_buf expansion w = some (lg1, w1, o)
        ∧ ∀ c ∈ w1.calls_since w, c.op ≠ Op.flush) := by
  constructor
  · intro hlevel hflush hw hf
    obtain ⟨w1, h1, h2, _⟩ :=
      logger._log_all_return lg level time_buf expansion w hlevel hw hf
    rw [if_pos hflush] at h2
    exact ⟨_, w1, _, h1, h2⟩
  · intro hlt
    by_cases hlevel : lg.current_level ≤ level
    · obtain ⟨lg1, w1, o, new, fl, h1, h2, _, h4, _, h6, _⟩ :=
        logger._log_shape lg level time_buf expansion w hlevel
      refine ⟨lg1, w1, o, h1, ?_⟩
      rw [calls_since_append w1 w _ h2, h6 hlt, List.append_nil]
      intro c hc hop
      rw [h4 c hc] at hop
      cases hop
    · refine ⟨lg, w, .returned, ?_, ?_⟩
      · simp [logger._log, Nat.lt_of_not_le hlevel]
      · simp [World.calls_since]

/-- Witness for C3 (amended): an Info call on thresholds Debug/Debug is flushed on both
sinks after both writes; a Debug call under flush threshold Error is not flushed. -/
theorem logger._log_flushes_at_flush_level_witness :
    (∃ lg1 w1 msg,
        (demo.make "net" Level.Debug Level.Debug [demo.spy 1, sink.stdout_sink 2])._log
          Level.Info demo.stamp "retry 3".toList World.empty = some (lg1, w1, Outcome.returned)
        ∧ at_depth 0 (w1.calls_since World.empty)
          = (demo.make "net" Level.Debug Level.Debug
              [demo.spy 1, sink.stdout_sink 2])._internal.sinks.map
              (fun s => ⟨0, s.addr, Op.write msg⟩)
            ++ (demo.make "net" Level.Debug Level.Debug
              [demo.spy 1, sink.stdout_sink 2])._internal.sinks.map
              (fun s => ⟨0, s.addr, Op.flush⟩))
    ∧ (∃ lg1 w1 o,
        (demo.make "net" Level.Debug Level.Error [demo.spy 1])._log
          Level.Debug demo.stamp "retry 3".toList World.empty = some (lg1, w1, o)
        ∧ ∀ c ∈ w1.calls_since World.empty, c.op ≠ Op.flush) :=
  ⟨(logger._log_flushes_at_flush_level _ _ _ _ _).1 (by decide) (by decide)
      (by
        intro s hs
        have hs2 : s = demo.spy 1 ∨ s = sink.stdout_sink 2 := by
          simpa [demo.make, logger.new, logger.add_sink] using hs
        rcases hs2 with rfl | rfl
        · intro d m w _; rfl
        · intro d m w _; rfl)
      (by
        intro s hs
        have hs2 : s = demo.spy 1 ∨ s = sink.stdout_sink 2 := by
          simpa [demo.make, logger.new, logger.add_sink] using hs
        rcases hs2 with rfl | rfl
        · intro d w; rfl
        · intro d w; rfl),
    (logger._log_flushes_at_flush_level _ _ _ _ _).2 (by decide)⟩

/-! ## C5: a sink whose `write` throws -/

/-- C5, as stated, fails: no sink call is guarded.  On a logger with sinks
`[write_thrower 11, spy 12]` an Info call ends by the exception after the single call on the
sink at address 11; a `dist_sink` at address 20 with children `[write_thrower 21, spy 22]`
ends its `write` by the exception after the call on the child at address 21.  The sinks at
addresses 12 and 22 receive nothing. -/
theorem write_thrower_stops_dispatch :
    ((demo.make "net" Level.Debug Level.Debug [demo.write_thrower 11, demo.spy 12])._log
        Level.Info demo.stamp "retry 3".toList World.empty).map
      (fun r => (r.2.1.calls.map (fun c => (c.depth, c.addr)), r.2.2))
      = some ([(0, 11)], Outcome.thrown)
    ∧ (fun r : World × Outcome => (r.1.calls.map (fun c => (c.depth, c.addr)), r.2))
        (sink.write (sink.dist_sink 20 [demo.write_thrower 21, demo.spy 22]) 0
          { str := "x".toList ++ [NL, NUL], size := 2, level := Level.Info } World.empty)
      = ([(0, 20), (1, 21)], Outcome.thrown) := by
  decide

/-- C5 (amended): when the sinks are `pre ++ si :: post`, the `write` of every sink of `pre`
returns (it neither throws nor waits for the mutex of `mt_sink::write`) and the `write` of `si`
throws on the message, the exception propagates to the caller.  For a
logger the log call ends by the exception, its own calls are one `write` for each sink of `pre`
and for `si` and nothing else (no sink of `post` is called, nothing is flushed), and the buffer
is not cleared.  For a `dist_sink`, `write` ends by the exception and its own calls are one
`write` for each child of `pre` and for `si`. -/
theorem write_exception_propagates (pre post : List sink) (si : sink) :
    (∀ (lg : logger) (level : Level) (time_buf expansion : List Char) (w : World),
      lg._internal.sinks = pre ++ si :: post →
      lg.current_level ≤ level →
      (∀ s ∈ pre, s.write_returns w.mut_locked) →
      si.write_throws_on (lg.rendered_message level time_buf expansion) w.mut_locked →
      ∃ lg1 w1,
        lg._log level time_buf expansion w = some (lg1, w1, Outcome.thrown)
        ∧ at_depth 0 (w1.calls_since w) = (pre ++ [si]).map
            (fun s => ⟨0, s.addr, Op.write (lg.rendered_message level time_buf expansion)⟩)
        ∧ lg1._internal.buf = lg.rendered level time_buf expansion)
    ∧ (∀ (a depth : Nat) (msg : message) (w : World),
      (∀ s ∈ pre, s.write_returns w.mut_locked) →
      si.write_throws_on msg w.mut_locked →
      (sink.write (sink.dist_sink a (pre ++ si :: post)) depth msg w).2 = Outcome.thrown
      ∧ at_depth (depth + 1)
          ((sink.write (sink.dist_sink a (pre ++ si :: post)) depth msg w).1.calls_since w)
        = (pre ++ [si]).map (fun s => ⟨depth + 1, s.addr, Op.write msg⟩)) := by
  constructor
  · intro lg level time_buf expansion w hsinks hlevel hpre hsi
    obtain ⟨lg1, w1, o, new, fl, h1, h2, h3, _, _, _, h7, _⟩ :=
      logger._log_shape lg level time_buf expansion w hlevel
    rw [hsinks] at h3 h7
    obtain ⟨g0, new2, g1, g2, _⟩ := write_each_throws
      (lg.rendered_message level time_buf expansion) si post pre 0 w hsi hpre
    have hn : new2 = new := List.append_cancel_left (g1.symm.trans h3)
    subst hn
    obtain ⟨hfl, ho, hb⟩ := h7 g0
    subst ho
    refine ⟨lg1, w1, h1, ?_, hb⟩
    rw [calls_since_append w1 w _ h2, hfl, List.append_nil, g2]
  · intro a depth msg w hpre hsi
    obtain ⟨g0, new, g1, g2, _⟩ := write_each_throws msg si post pre (depth + 1)
      (w.record ⟨depth, a, .write msg⟩) hsi hpre
    rw [sink.write]
    refine ⟨g0, ?_⟩
    have hc : (write_each (pre ++ si :: post) (depth + 1) msg
        (w.record ⟨depth, a, .write msg⟩)).1.calls
        = w.calls ++ (⟨depth, a, .write msg⟩ :: new) := by
      rw [g1, record_calls, List.append_assoc]
      rfl
    rw [calls_since_append _ w _ hc]
    have hne : ¬ (depth = depth + 1) := Nat.ne_of_lt (Nat.lt_succ_self depth)
    rw [← g2]
    simp [at_depth, hne]

/-- Witness for C5 (amended): a logger and a `dist_sink` whose second sink throws on
`write`; the third sink is never called. -/
theorem write_exception_propagates_witness :
    (∃ lg1 w1,
        (demo.make "net" Level.Debug Level.Debug
            [demo.spy 10, demo.write_thrower 11, demo.spy 12])._log
          Level.Info demo.stamp "retry 3".toList World.empty = some (lg1, w1, Outcome.thrown)
        ∧ at_depth 0 (w1.calls_since World.empty)
          = ([demo.spy 10] ++ [demo.write_thrower 11]).map
            (fun s => ⟨0, s.addr, Op.write
              ((demo.make "net" Level.Debug Level.Debug
                [demo.spy 10, demo.write_thrower 11, demo.spy 12]).rendered_message
                  Level.Info demo.stamp "retry 3".toList)⟩)
        ∧ lg1._internal.buf
          = (demo.make "net" Level.Debug Level.Debug
              [demo.spy 10, demo.write_thrower 11, demo.spy 12]).rendered
                Level.Info demo.stamp "retry 3".toList)
    ∧ ((sink.write
          (sink.dist_sink 20 ([demo.spy 21] ++ demo.write_thrower 22 :: [demo.spy 23])) 0
          { str := "x".toList ++ [NL, NUL], size := 2, level := Level.Info } World.empty).2
        = Outcome.thrown
      ∧ at_depth (0 + 1)
          ((sink.write
            (sink.dist_sink 20 ([demo.spy 21] ++ demo.write_thrower 22 :: [demo.spy 23])) 0
            { str := "x".toList ++ [NL, NUL], size := 2, level := Level.Info }
            World.empty).1.calls_since World.empty)
        = ([demo.spy 21] ++ [demo.write_thrower 22]).map (fun s => ⟨0 + 1, s.addr, Op.write
            { str := "x".toList ++ [NL, NUL], size := 2, level := Level.Info }⟩)) :=
  ⟨(write_exception_propagates [demo.spy 10] [demo.spy 12] (demo.write_thrower 11)).1
      (demo.make "net" Level.Debug Level.Debug
        [demo.spy 10, demo.write_thrower 11, demo.spy 12])
      Level.Info demo.stamp "retry 3".toList World.empty rfl (by decide)
      (by
        intro s hs
        rw [List.mem_singleton] at hs
        subst hs
        intro d m w _
        rfl)
      (by intro d w _; rfl),
    (write_exception_propagates [demo.spy 21] [demo.spy 23] (demo.write_thrower 22)).2
      20 0 { str := "x".toList ++ [NL, NUL], size := 2, level := Level.Info } World.empty
      (by
        intro s hs
        rw [List.mem_singleton] at hs
        subst hs
        intro d m w _
        rfl)
      (by intro d w _; rfl)⟩

/-! ## C6: `remove_sink` -/

/-- The loop of `remove_sink`: either no element has the address and the list is returned as
it is, or the list splits at the first element with the address, which alone is dropped. -/
theorem remove_first_spec (p : Nat) : ∀ (l : List sink),
    ((∀ s ∈ l, s.addr ≠ p) ∧ remove_first p l = l)
    ∨ ∃ pre x post, l = pre ++ x :: post ∧ x.addr = p ∧ (∀ y ∈ pre, y.addr ≠ p)
        ∧ remove_first p l = pre ++ post
  | [] => Or.inl ⟨by simp, rfl⟩
  | s :: rest => by
      by_cases hs : s.addr = p
      · exact Or.inr ⟨[], s, rest, rfl, hs, by simp, by simp [remove_first, hs]⟩
      · rcases remove_first_spec p rest with ⟨h1, h2⟩ | ⟨pre, x, post, h1, h2, h3, h4⟩
        · refine Or.inl ⟨?_, by simp [remove_first, hs, h2]⟩
          intro t ht
          rcases List.mem_cons.1 ht with rfl | ht
          · exact hs
          · exact h1 t ht
        · refine Or.inr ⟨s :: pre, x, post, by simp [h1], h2, ?_, by simp [remove_first, hs, h4]⟩
          intro t ht
          rcases List.mem_cons.1 ht with rfl | ht
          · exact hs
          · exact h3 t ht

/-- C6: `remove_sink(p)` on a logger and on a `dist_sink` (duplicates allowed).  Either no
element of the collection has identity `p`, and the object is unchanged; or the collection is
`pre ++ x :: post` where `x` is the first element with identity `p`, and only the collection
changes, to `pre ++ post`.  The operation is total: it never fails.  The overload of
`logger::remove_sink` that takes a `shared_ptr` is the same operation on the pointer's
address. -/
theorem remove_sink_removes_first_match (lg : logger) (a : Nat) (children : List sink)
    (p : Nat) :
    (∀ s : sink, lg.remove_sink_ptr s = lg.remove_sink s.addr)
    ∧ (((∀ s ∈ lg._internal.sinks, s.addr ≠ p) ∧ lg.remove_sink p = lg)
      ∨ ∃ pre x post, lg._internal.sinks = pre ++ x :: post ∧ x.addr = p
          ∧ (∀ y ∈ pre, y.addr ≠ p)
          ∧ lg.remove_sink p
            = { lg with _internal := { lg._internal with sinks := pre ++ post } })
    ∧ (((∀ s ∈ children, s.addr ≠ p)
          ∧ dist_sink.remove_sink (sink.dist_sink a children) p = sink.dist_sink a children)
      ∨ ∃ pre x post, children = pre ++ x :: post ∧ x.addr = p
          ∧ (∀ y ∈ pre, y.addr ≠ p)
          ∧ dist_sink.remove_sink (sink.dist_sink a children) p
            = sink.dist_sink a (pre ++ post)) := by
  refine ⟨fun _ => rfl, ?_, ?_⟩
  · rcases remove_first_spec p lg._internal.sinks with ⟨h1, h2⟩ | ⟨pre, x, post, h1, h2, h3, h4⟩
    · exact Or.inl ⟨h1, by simp [logger.remove_sink, h2]⟩
    · exact Or.inr ⟨pre, x, post, h1, h2, h3, by simp [logger.remove_sink, h4]⟩
  · rcases remove_first_spec p children with ⟨h1, h2⟩ | ⟨pre, x, post, h1, h2, h3, h4⟩
    · exact Or.inl ⟨h1, by simp [dist_sink.remove_sink, h2]⟩
    · exact Or.inr ⟨pre, x, post, h1, h2, h3, by simp [dist_sink.remove_sink, h4]⟩

/-! ## C7: `dist_sink` -/

/-- C7, as stated, fails in two ways.  `dist_sink` does not override `flush`: a `flush` on the
`dist_sink` at address 1 with child `spy 2` is received by the `dist_sink` alone.  And a child
whose `write` throws ends the loop: with children `[write_thrower 2, spy 3]` the child at
address 3 receives no `write`. -/
theorem dist_sink_flush_reaches_no_child :
    (fun r : World × Outcome => (r.1.calls, r.2))
        (sink.flush (sink.dist_sink 1 [demo.spy 2]) 0 World.empty)
      = ([⟨0, 1, Op.flush⟩], Outcome.returned)
    ∧ (fun r : World × Outcome => (r.1.calls.map (fun c => (c.depth, c.addr)), r.2))
        (sink.write (sink.dist_sink 1 [demo.write_thrower 2, demo.spy 3]) 0
          { str := "x".toList ++ [NL, NUL], size := 2, level := Level.Trace } World.empty)
      = ([(0, 1), (1, 2)], Outcome.thrown) := by
  decide

/-- C7 (amended): for every `dist_sink` with children `c1..cn` and every message, whatever
its severity: provided the `write` of every child returns (it neither throws nor waits for
the mutex of `mt_sink::write`), `write(m)` returns and the calls the `dist_sink` itself makes
are one `write(m)` per child in insertion order; `flush()` is the inherited empty
`sink::flush`: it returns, calls no child and changes nothing but the record that the
`dist_sink` received the call. -/
theorem dist_sink_write_fans_out_flush_does_not (a : Nat) (children : List sink) :
    (∀ (depth : Nat) (msg : message) (w : World),
      (∀ c ∈ children, c.write_returns w.mut_locked) →
      (sink.write (sink.dist_sink a children) depth msg w).2 = Outcome.returned
      ∧ at_depth depth ((sink.write (sink.dist_sink a children) depth msg w).1.calls_since w)
        = [⟨depth, a, Op.write msg⟩]
      ∧ at_depth (depth + 1)
          ((sink.write (sink.dist_sink a children) depth msg w).1.calls_since w)
        = children.map (fun c => ⟨depth + 1, c.addr, Op.write msg⟩))
    ∧ (∀ (depth : Nat) (w : World),
      sink.flush (sink.dist_sink a children) depth w
        = (w.record ⟨depth, a, Op.flush⟩, Outcome.returned)) := by
  constructor
  · intro depth msg w hret
    obtain ⟨g0, new, g1, g2, g3, _⟩ := write_each_returns msg children (depth + 1)
      (w.record ⟨depth, a, .write msg⟩) hret
    rw [sink.write]
    have hc : (write_each children (depth + 1) msg
        (w.record ⟨depth, a, .write msg⟩)).1.calls
        = w.calls ++ (⟨depth, a, .write msg⟩ :: new) := by
      rw [g1, record_calls, List.append_assoc]
      rfl
    rw [calls_since_append _ w _ hc]
    have hne : ¬ (depth = depth + 1) := Nat.ne_of_lt (Nat.lt_succ_self depth)
    refine ⟨g0, ?_, ?_⟩
    · rw [at_depth_cons_self]
      congr 1
      simp only [at_depth, List.filter_eq_nil_iff, decide_eq_true_eq]
      intro c hc2
      exact Nat.ne_of_gt (g3 c hc2).1
    · rw [← g2]
      simp [at_depth, hne]
  · intro depth w
    rfl

/-- Witness for C7 (amended): a `dist_sink` with two children that never throw. -/
theorem dist_sink_write_fans_out_flush_does_not_witness :
    (sink.write (sink.dist_sink 1 [demo.spy 2, sink.stdout_sink 3]) 0
        { str := "x".toList ++ [NL, NUL], size := 2, level := Level.Trace } World.empty).2
      = Outcome.returned
    ∧ at_depth 0 ((sink.write (sink.dist_sink 1 [demo.spy 2, sink.stdout_sink 3]) 0
        { str := "x".toList ++ [NL, NUL], size := 2, level := Level.Trace }
          World.empty).1.calls_since World.empty)
      = [⟨0, 1, Op.write { str := "x".toList ++ [NL, NUL], size := 2, level := Level.Trace }⟩]
    ∧ at_depth (0 + 1) ((sink.write (sink.dist_sink 1 [demo.spy 2, sink.stdout_sink 3]) 0
        { str := "x".toList ++ [NL, NUL], size := 2, level := Level.Trace }
          World.empty).1.calls_since World.empty)
      = [demo.spy 2, sink.stdout_sink 3].map (fun c => ⟨0 + 1, c.addr,
          Op.write { str := "x".toList ++ [NL, NUL], size := 2, level := Level.Trace }⟩) :=
  (dist_sink_write_fans_out_flush_does_not 1 [demo.spy 2, sink.stdout_sink 3]).1 0
    { str := "x".toList ++ [NL, NUL], size := 2, level := Level.Trace } World.empty
    (by
      intro s hs
      have hs2 : s = demo.spy 2 ∨ s = sink.stdout_sink 3 := by simpa using hs
      rcases hs2 with rfl | rfl
      · intro d m w _; rfl
      · intro d m w _; rfl)

/-! ## C10: `mt_sink` -/

/-- One log call on a logger whose only sink is an `mt_sink`: every `flush` it causes is
received by the `mt_sink` itself, and no stream is flushed. -/
theorem logger._log_mt_only (a : Nat) (wrapped : sink) (lg : logger) (level : Level)
    (time_buf expansion : List Char) (w : World)
    (hs : lg._internal.sinks = [sink.mt_sink a wrapped]) :
    ∃ lg1 w1 o new, lg._log level time_buf expansion w = some (lg1, w1, o)
      ∧ lg1._internal.sinks = [sink.mt_sink a wrapped]
      ∧ w1.calls = w.calls ++ new
      ∧ (∀ c ∈ new, c.op = Op.flush → c.depth = 0 ∧ c.addr = a)
      ∧ w1.flushes = w.flushes := by
  by_cases hlevel : lg.current_level ≤ level
  · rw [logger._log_dispatch lg level time_buf expansion w hlevel, hs]
    obtain ⟨new, h1, h2, h3, _⟩ := write_each_frame [sink.mt_sink a wrapped] 0
      (lg.rendered_message level time_buf expansion) w
    have hw : ∀ c ∈ new, c.op = Op.flush → c.depth = 0 ∧ c.addr = a := by
      intro c hc hop
      rw [(h2 c hc).2] at hop
      cases hop
    rcases hwe : write_each [sink.mt_sink a wrapped] 0
        (lg.rendered_message level time_buf expansion) w with ⟨w1, o⟩
    rw [hwe] at h1 h3
    simp only at h1 h3
    cases o with
    | thrown => exact ⟨_, w1, .thrown, new, rfl, hs, h1, hw, h3⟩
    | blocked => exact ⟨_, w1, .blocked, new, rfl, hs, h1, hw, h3⟩
    | returned =>
      by_cases hf : level ≥ lg.flush_level
      · simp only [hf, if_true, flush_each, sink.flush]
        refine ⟨_, _, .returned, new ++ [⟨0, a, .flush⟩], rfl, hs, ?_, ?_, h3⟩
        · rw [record_calls, h1, List.append_assoc]
        · intro c hc hop
          rcases List.mem_append.1 hc with hc | hc
          · exact hw c hc hop
          · rw [List.mem_singleton] at hc
            subst hc
            exact ⟨rfl, rfl⟩
      · simp only [hf, if_false]
        exact ⟨_, w1, .returned, new, rfl, hs, h1, hw, h3⟩
  · refine ⟨lg, w, .returned, [], ?_, hs, by simp, by simp, rfl⟩
    simp [logger._log, Nat.lt_of_not_le hlevel]

/-- Any sequence of log and flush calls on a logger whose only sink is an `mt_sink`. -/
theorem logger.run_mt_only (a : Nat) (wrapped : sink) : ∀ (reqs : List request) (lg : logger)
    (w : World), lg._internal.sinks = [sink.mt_sink a wrapped] →
    ∃ lg1 w1 o new, lg.run w reqs = some (lg1, w1, o)
      ∧ w1.calls = w.calls ++ new
      ∧ (∀ c ∈ new, c.op = Op.flush → c.depth = 0 ∧ c.addr = a)
      ∧ w1.flushes = w.flushes
  | [], lg, w, _ => ⟨lg, w, .returned, [], rfl, by simp, by simp, rfl⟩
  | .log level time_buf expansion :: rest, lg, w, hs => by
      obtain ⟨lg1, w1, o, new, h1, h2, h3, h4, h5⟩ :=
        logger._log_mt_only a wrapped lg level time_buf expansion w hs
      obtain ⟨lg2, w2, o2, new2, g1, g3, g4, g5⟩ :=
        logger.run_mt_only a wrapped rest lg1 w1 h2
      have hcont : ∃ lg3 w3 o3 new3, logger.run lg1 w1 rest = some (lg3, w3, o3)
          ∧ w3.calls = w.calls ++ new3
          ∧ (∀ c ∈ new3, c.op = Op.flush → c.depth = 0 ∧ c.addr = a)
          ∧ w3.flushes = w.flushes := by
        refine ⟨lg2, w2, o2, new ++ new2, g1, ?_, ?_, ?_⟩
        · rw [g3, h3, List.append_assoc]
        · intro c hc
          rcases List.mem_append.1 hc with hc | hc
          · exact h4 c hc
          · exact g4 c hc
        · rw [g5, h5]
      rw [logger.run, h1]
      cases o with
      | blocked => exact ⟨lg1, w1, .blocked, new, rfl, h3, h4, h5⟩
      | returned => exact hcont
      | thrown => exact hcont
  | .flush :: rest, lg, w, hs => by
      have hfl : lg.flush w = (w.record ⟨0, a, .flush⟩, Outcome.returned) := by
        rw [logger.flush, hs]
        rfl
      obtain ⟨lg2, w2, o2, new2, g1, g3, g4, g5⟩ :=
        logger.run_mt_only a wrapped rest lg (w.record ⟨0, a, .flush⟩) hs
      refine ⟨lg2, w2, o2, ⟨0, a, .flush⟩ :: new2, ?_, ?_, ?_, ?_⟩
      · rw [logger.run, hfl]
        exact g1
      · rw [g3, record_calls, List.append_assoc]
        rfl
      · intro c hc hop
        rcases List.mem_cons.1 hc with rfl | hc
        · exact ⟨rfl, rfl⟩
        · exact g4 c hc hop
      · rw [g5]
        rfl

/-- C10, as stated, fails for a wrapper that is called from inside the `write` of another
wrapper.  All wrappers share the one static mutex of `mt_sink::write`: in
`mt_sink 1 (mt_sink 2 (spy 3))` the wrapper at address 1 locks it and calls the wrapper at
address 2, which receives `write(m)`, waits for the mutex and never calls the sink it wraps;
the sink at address 3 receives no call and the call never returns. -/
theorem mt_sink_nested_write_never_forwards :
    (fun r : World × Outcome => (r.1.calls.map (fun c => (c.depth, c.addr)), r.2))
        (sink.write (sink.mt_sink 1 (sink.mt_sink 2 (demo.spy 3))) 0
          { str := "x".toList ++ [NL, NUL], size := 2, level := Level.Info } World.empty)
      = ([(0, 1), (1, 2)], Outcome.blocked) := by
  decide

/-- C10 (amended): for every `mt_sink` at address `a` wrapping `wrapped`.  Entered with the
mutex of `mt_sink::write` free (that is, not from inside the `write` of another wrapper),
`write(m)` locks it and makes the call `wrapped.write(m)`, once and with the same message (the
calls made by the wrapper itself are that one call), and the mutex is released when that call
returns or throws.  `flush()` is the inherited empty `sink::flush`, which returns and changes
nothing but the record that the wrapper received the call.  Hence on a logger whose only sink
is the `mt_sink`, over any sequence of log and flush calls every `flush` call that is caused is
one received by the wrapper itself from the logger (none is received by `wrapped`), and no
stream is flushed. -/
theorem mt_sink_forwards_write_under_free_mutex (a : Nat) (wrapped : sink) :
    (∀ (depth : Nat) (msg : message) (w : World), w.mut_locked = false →
      sink.write (sink.mt_sink a wrapped) depth msg w
        = lock_guard_scope_end
            (sink.write wrapped (depth + 1) msg (w.record ⟨depth, a, Op.write msg⟩).lock)
      ∧ at_depth (depth + 1)
          ((sink.write (sink.mt_sink a wrapped) depth msg w).1.calls_since w)
        = [⟨depth + 1, wrapped.addr, Op.write msg⟩])
    ∧ (∀ (depth : Nat) (w : World),
      sink.flush (sink.mt_sink a wrapped) depth w
        = (w.record ⟨depth, a, Op.flush⟩, Outcome.returned))
    ∧ (∀ (current_level flush_level : Level) (buf name : List Char) (reqs : List request)
        (w : World),
      ∃ lg1 w1 o,
        logger.run
          { current_level := current_level, flush_level := flush_level,
            _internal := { sinks := [sink.mt_sink a wrapped], buf := buf, name := name } }
          w reqs = some (lg1, w1, o)
        ∧ (∀ c ∈ w1.calls_since w, c.op = Op.flush → c.depth = 0 ∧ c.addr = a)
        ∧ w1.flushes = w.flushes) := by
  refine ⟨?_, fun _ _ => rfl, ?_⟩
  · intro depth msg w hfree
    have heq : sink.write (sink.mt_sink a wrapped) depth msg w
        = lock_guard_scope_end
            (sink.write wrapped (depth + 1) msg (w.record ⟨depth, a, Op.write msg⟩).lock) := by
      rw [sink.write]
      simp [hfree]
    refine ⟨heq, ?_⟩
    obtain ⟨rest, h1, h2, _⟩ :=
      sink.write_frame wrapped (depth + 1) msg (w.record ⟨depth, a, .write msg⟩).lock
    rcases hsw : sink.write wrapped (depth + 1) msg (w.record ⟨depth, a, .write msg⟩).lock
      with ⟨w1, o⟩
    rw [hsw] at h1
    simp only at h1
    have hc : (sink.write (sink.mt_sink a wrapped) depth msg w).1.calls
        = w.calls ++ (⟨depth, a, .write msg⟩ :: ⟨depth + 1, wrapped.addr, .write msg⟩ :: rest) := by
      rw [heq, hsw, (lock_guard_scope_end_fst w1 o).1, h1]
      show (w.calls ++ [_]) ++ _ = _
      rw [List.append_assoc]
      rfl
    rw [calls_since_append _ w _ hc]
    have hne : ¬ (depth = depth + 1) := Nat.ne_of_lt (Nat.lt_succ_self depth)
    have hrest := at_depth_deeper (depth + 1) _ rest h2
    simp only [at_depth] at hrest
    simp [at_depth, hne, hrest]
  · intro current_level flush_level buf name reqs w
    obtain ⟨lg1, w1, o, new, h1, h2, h3, h4⟩ := logger.run_mt_only a wrapped reqs
      { current_level := current_level, flush_level := flush_level,
        _internal := { sinks := [sink.mt_sink a wrapped], buf := buf, name := name } } w rfl
    refine ⟨lg1, w1, o, h1, ?_, h4⟩
    rw [calls_since_append w1 w _ h2]
    exact h3

/-- Witness for C10 (amended): a wrapper around a spy, entered with the mutex free, makes
the one call on the spy and returns with the mutex released. -/
theorem mt_sink_forwards_write_under_free_mutex_witness :
    World.empty.mut_locked = false
    ∧ (fun r : World × Outcome => (r.1.calls, r.1.mut_locked, r.2))
        (sink.write (sink.mt_sink 1 (demo.spy 2)) 0
          { str := "x".toList ++ [NL, NUL], size := 2, level := Level.Info } World.empty)
      = ([⟨0, 1, Op.write { str := "x".toList ++ [NL, NUL], size := 2, level := Level.Info }⟩,
          ⟨1, 2, Op.write { str := "x".toList ++ [NL, NUL], size := 2, level := Level.Info }⟩],
        false, Outcome.returned)
    ∧ at_depth (0 + 1)
        ((sink.write (sink.mt_sink 1 (demo.spy 2)) 0
          { str := "x".toList ++ [NL, NUL], size := 2, level := Level.Info }
          World.empty).1.calls_since World.empty)
      = [⟨0 + 1, (demo.spy 2).addr,
          Op.write { str := "x".toList ++ [NL, NUL], size := 2, level := Level.Info }⟩] :=
  ⟨rfl, by decide,
    ((mt_sink_forwards_write_under_free_mutex 1 (demo.spy 2)).1 0
      { str := "x".toList ++ [NL, NUL], size := 2, level := Level.Info } World.empty rfl).2⟩

/-! ## C8: the console sinks -/

/-- C8 fails on the code for `stderr_sink`: writing the message `"x\n"` to a `stderr_sink` in
the empty world leaves standard error empty and puts the bytes on standard output, the same
as `stdout_sink` does; its `flush` flushes standard output and not standard error. -/
theorem stderr_sink_writes_to_stdout :
    (stderr_sink.write { str := "x".toList ++ [NL, NUL], size := 2, level := Level.Error }
        World.empty).out Stream.stderr = []
    ∧ (stderr_sink.write { str := "x".toList ++ [NL, NUL], size := 2, level := Level.Error }
        World.empty).out Stream.stdout = "x".toList ++ [NL]
    ∧ (stdout_sink.write { str := "x".toList ++ [NL, NUL], size := 2, level := Level.Error }
        World.empty).out Stream.stdout = "x".toList ++ [NL]
    ∧ (stdout_sink.write { str := "x".toList ++ [NL, NUL], size := 2, level := Level.Error }
        World.empty).out Stream.stderr = []
    ∧ (stderr_sink.flush World.empty).flushes Stream.stderr = 0
    ∧ (stderr_sink.flush World.empty).flushes Stream.stdout = 1 := by
  decide

/-! ## C4: the rendered line -/

theorem c_str_of_no_NUL (l : List Char) (h : NUL ∉ l) : c_str l = l := by
  rw [c_str, List.takeWhile_eq_self_iff]
  intro c hc
  simp only [bne_iff_ne, ne_eq]
  intro hcn
  exact h (hcn ▸ hc)

theorem logger.c_str_level_as_string (level : Level) :
    c_str (logger.level_as_string level) = logger.level_as_string level := by
  unfold logger.level_as_string
  split <;> decide

theorem logger.clear_of_empty (lg : logger) (h : lg._internal.buf = []) :
    { lg with _internal := { lg._internal with buf := [] } } = lg := by
  obtain ⟨cl, fl, s, b, n⟩ := lg
  simp only at h
  subst h
  rfl

/-- Any sequence of log and flush calls on a logger with an empty buffer all of whose sink
calls return: every call returns and leaves the logger and the mutex as they were. -/
theorem logger.run_all_return : ∀ (reqs : List request) (lg : logger) (w : World),
    lg._internal.buf = [] →
    (∀ s ∈ lg._internal.sinks, s.write_returns w.mut_locked) →
    (∀ s ∈ lg._internal.sinks, s.flush_returns) →
    ∃ w0, lg.run w reqs = some (lg, w0, Outcome.returned) ∧ w0.mut_locked = w.mut_locked
  | [], lg, w, _, _, _ => ⟨w, rfl, rfl⟩
  | .log level time_buf expansion :: rest, lg, w, hb, hw, hf => by
      by_cases hlevel : lg.current_level ≤ level
      · obtain ⟨w1, h1, _, hl⟩ :=
          logger._log_all_return lg level time_buf expansion w hlevel hw hf
        rw [logger.clear_of_empty lg hb] at h1
        obtain ⟨w0, h0, hl0⟩ := logger.run_all_return rest lg w1 hb (hl ▸ hw) hf
        exact ⟨w0, by rw [logger.run, h1]; exact h0, by rw [hl0, hl]⟩
      · have h1 : lg._log level time_buf expansion w = some (lg, w, .returned) := by
          simp [logger._log, Nat.lt_of_not_le hlevel]
        obtain ⟨w0, h0, hl0⟩ := logger.run_all_return rest lg w hb hw hf
        exact ⟨w0, by rw [logger.run, h1]; exact h0, hl0⟩
  | .flush :: rest, lg, w, hb, hw, hf => by
      obtain ⟨g0, _⟩ := flush_each_returns lg._internal.sinks 0 w hf
      obtain ⟨_, _, _, _, g4, _⟩ := flush_each_frame lg._internal.sinks 0 w
      rcases hfe : flush_each lg._internal.sinks 0 w with ⟨w1, o⟩
      rw [hfe] at g0 g4
      simp only at g0 g4
      subst g0
      obtain ⟨w0, h0, hl0⟩ := logger.run_all_return rest lg w1 hb (g4 ▸ hw) hf
      exact ⟨w0, by rw [logger.run, logger.flush, hfe]; exact h0, by rw [hl0, g4]⟩

/-- C4: take a logger as the constructor and `add_sink` leave it (empty buffer), with any
name, thresholds and sinks, the sinks not failing (every `write` and `flush` returns: none
throws, no `write` waits for the mutex of `mt_sink::write`), and run any sequence of earlier
log (and flush) calls on it: it runs to its end.  A following log call with
`current_level ≤ level`, timestamp `time_buf` and expansion `expansion` returns, and each sink
receives from the logger one `write` whose message has as `str` the bytes
`time_buf ++ " [" ++ token ++ "] [" ++ name ++ "] " ++ expansion ++ "\n"` followed by the
terminator, as `size` the length of exactly those bytes, and the call's severity.  The token is
off/trace/debug/info/warn/error/critical for Off..Critical and `??` for any other value. -/
theorem logger._log_line_format (name : List Char) (current_level flush_level : Level)
    (sinks : List sink) (earlier : List request) (level : Level)
    (time_buf expansion : List Char) (w : World)
    (hname : NUL ∉ name) (htime : NUL ∉ time_buf)
    (hw : ∀ s ∈ sinks, s.write_returns w.mut_locked) (hf : ∀ s ∈ sinks, s.flush_returns)
    (hlevel : current_level ≤ level) :
    (∃ lg0 w0 lg1 w1,
      logger.run
          { current_level := current_level, flush_level := flush_level,
            _internal := { sinks := sinks, buf := [], name := name } } w earlier
        = some (lg0, w0, Outcome.returned)
      ∧ lg0._log level time_buf expansion w0 = some (lg1, w1, Outcome.returned)
      ∧ at_depth 0 (w1.calls_since w0)
        = sinks.map (fun s => ⟨0, s.addr, Op.write
            { str := (time_buf ++ " [".toList ++ logger.level_as_string level ++ "] [".toList
                ++ name ++ "] ".toList ++ expansion ++ [NL]) ++ [NUL],
              size := (time_buf ++ " [".toList ++ logger.level_as_string level
                ++ "] [".toList ++ name ++ "] ".toList ++ expansion ++ [NL]).length,
              level := level }⟩)
          ++ (if flush_level ≤ level then sinks.map (fun s => ⟨0, s.addr, Op.flush⟩)
              else []))
    ∧ logger.level_as_string Level.Off = "off".toList
    ∧ logger.level_as_string Level.Trace = "trace".toList
    ∧ logger.level_as_string Level.Debug = "debug".toList
    ∧ logger.level_as_string Level.Info = "info".toList
    ∧ logger.level_as_string Level.Warning = "warn".toList
    ∧ logger.level_as_string Level.Error = "error".toList
    ∧ logger.level_as_string Level.Critical = "critical".toList
    ∧ ∀ other : Level, Level.Critical < other →
        logger.level_as_string other = "??".toList := by
  refine ⟨?_, rfl, rfl, rfl, rfl, rfl, rfl, rfl, ?_⟩
  · obtain ⟨w0, h0, hl0⟩ := logger.run_all_return earlier
      { current_level := current_level, flush_level := flush_level,
        _internal := { sinks := sinks, buf := [], name := name } } w rfl hw hf
    obtain ⟨w1, h1, h2, _⟩ := logger._log_all_return
      { current_level := current_level, flush_level := flush_level,
        _internal := { sinks := sinks, buf := [], name := name } }
      level time_buf expansion w0 hlevel (hl0 ▸ hw) hf
    refine ⟨_, w0, _, w1, h0, h1, ?_⟩
    rw [h2]
    simp only [logger.rendered_message, logger.rendered, logger.prompt_text,
      c_str_of_no_NUL name hname, c_str_of_no_NUL time_buf htime,
      logger.c_str_level_as_string]
    congr 2
    funext s
    simp
    omega
  · intro other hother
    unfold logger.level_as_string
    split <;> first | rfl | (exfalso; revert hother; decide)

/-- Witness for C4: the logger `"net"` with a spy and a wrapped `stdout_sink`, after an Info
call, an explicit flush and a suppressed Trace call; a Warning call whose format `"retry %d"`
with argument 3 expands to `"retry 3"` delivers the line
`[ 01/02/03 04:05:06 ] [warn] [net] retry 3` and a newline, 43 bytes, to both sinks. -/
theorem logger._log_line_format_witness :
    ∃ lg0 w0 lg1 w1,
      logger.run
          (demo.make "net" Level.Debug Level.Debug
            [demo.spy 1, sink.mt_sink 2 (sink.stdout_sink 3)])
          World.empty
          [request.log Level.Info demo.stamp "first".toList, request.flush,
            request.log Level.Trace demo.stamp "skipped".toList]
        = some (lg0, w0, Outcome.returned)
      ∧ lg0._log Level.Warning demo.stamp "retry 3".toList w0
        = some (lg1, w1, Outcome.returned)
      ∧ at_depth 0 (w1.calls_since w0)
        = [⟨0, 1, Op.write
              { str := "[ 01/02/03 04:05:06 ] [warn] [net] retry 3".toList ++ [NL, NUL],
                size := 43, level := Level.Warning }⟩,
            ⟨0, 2, Op.write
              { str := "[ 01/02/03 04:05:06 ] [warn] [net] retry 3".toList ++ [NL, NUL],
                size := 43, level := Level.Warning }⟩,
            ⟨0, 1, Op.flush⟩, ⟨0, 2, Op.flush⟩] :=
  (logger._log_line_format "net".toList Level.Debug Level.Debug
    [demo.spy 1, sink.mt_sink 2 (sink.stdout_sink 3)]
    [request.log Level.Info demo.stamp "first".toList, request.flush,
      request.log Level.Trace demo.stamp "skipped".toList]
    Level.Warning demo.stamp "retry 3".toList World.empty (by decide) (by decide)
    (by
      intro s hs
      have hs2 : s = demo.spy 1 ∨ s = sink.mt_sink 2 (sink.stdout_sink 3) := by
        simpa using hs
      rcases hs2 with rfl | rfl
      · intro d m w _
        rfl
      · intro d m w hw
        have hfree : w.mut_locked = false := hw
        simp [sink.write, hfree, lock_guard_scope_end])
    (by
      intro s hs
      have hs2 : s = demo.spy 1 ∨ s = sink.mt_sink 2 (sink.stdout_sink 3) := by
        simpa using hs
      rcases hs2 with rfl | rfl
      · intro d w; rfl
      · intro d w; rfl)
    (by decide)).1

end smolog
